import Mathlib

/-!
Verification of the massunpacker core against its design specification.

The development shallowly embeds the Python modules
`massunpacker/encoding.py`, `massunpacker/utils.py`,
`massunpacker/collision.py` and `massunpacker/extractor.py`:

* Python strings are lists of Unicode code points (`PyStr`);
  byte strings are lists of naturals below 256.
* Filesystem paths are lists of path components; `Path.resolve()` is
  modelled lexically (a symlink-free filesystem), and the output tree is
  a finite list of resolved absolute paths.
* Fallible I/O is made explicit: per-entry write/rename success flags
  are oracle inputs, the zip-open step is an oracle outcome, and a
  raised Python exception is an explicit result constructor.
* Hash digests are modelled by a digest function passed as a parameter
  (the source picks xxhash / blake2b / sha256 at runtime; every claim
  is independent of the concrete digest).
-/

namespace Massunpacker

/-- Python strings are modelled as lists of Unicode code points. -/
abbrev PyStr := List Nat

/-- Code-point list of a Lean string literal, for readable concrete inputs. -/
def strLit (s : String) : PyStr := s.data.map Char.toNat

/-! ## encoding.py -/

/-- The candidate encodings of `ENCODINGS` in `encoding.py`.  The source keeps
them as names in a list; an unknown name would raise an uncaught
`LookupError` in `bytes.decode`, so only the four shipped candidates are
modelled. -/
inductive Enc
  | utf8
  | cp866
  | cp1251
  | latin1
deriving DecidableEq, Repr

/-- The Python codec name of a candidate encoding. -/
def Enc.name : Enc → String
  | .utf8 => "utf-8"
  | .cp866 => "cp866"
  | .cp1251 => "cp1251"
  | .latin1 => "latin1"

/-- The default candidate list `ENCODINGS = ["utf-8", "cp866", "cp1251", "latin1"]`. -/
def ENCODINGS : List Enc := [.utf8, .cp866, .cp1251, .latin1]

/-- Is a byte a UTF-8 continuation byte. -/
def isCont (b : Nat) : Bool := 0x80 ≤ b && b < 0xC0

/-- Code point of a two-byte UTF-8 sequence. -/
def utf8Val2 (b b2 : Nat) : Nat := (b - 0xC0) * 0x40 + (b2 - 0x80)

/-- Code point of a three-byte UTF-8 sequence. -/
def utf8Val3 (b b2 b3 : Nat) : Nat :=
  (b - 0xE0) * 0x1000 + (b2 - 0x80) * 0x40 + (b3 - 0x80)

/-- Code point of a four-byte UTF-8 sequence. -/
def utf8Val4 (b b2 b3 b4 : Nat) : Nat :=
  (b - 0xF0) * 0x40000 + (b2 - 0x80) * 0x1000 + (b3 - 0x80) * 0x40 + (b4 - 0x80)

/-- Continue a two-byte sequence with lead byte `b` (0xC2..0xDF). -/
def utf8Cont1 (b : Nat) : List Nat → Option (Nat × List Nat)
  | b2 :: bs2 => if isCont b2 then some (utf8Val2 b b2, bs2) else none
  | [] => none

/-- Continue a three-byte sequence with lead byte `b` (0xE0..0xEF); rejects
overlong values and surrogates. -/
def utf8Cont2 (b : Nat) : List Nat → Option (Nat × List Nat)
  | b2 :: b3 :: bs3 =>
    if isCont b2 && isCont b3 then
      if 0x800 ≤ utf8Val3 b b2 b3 &&
          !(0xD800 ≤ utf8Val3 b b2 b3 && utf8Val3 b b2 b3 ≤ 0xDFFF) then
        some (utf8Val3 b b2 b3, bs3)
      else none
    else none
  | _ => none

/-- Continue a four-byte sequence with lead byte `b` (0xF0..0xF4); rejects
overlong values and values above U+10FFFF. -/
def utf8Cont3 (b : Nat) : List Nat → Option (Nat × List Nat)
  | b2 :: b3 :: b4 :: bs4 =>
    if isCont b2 && isCont b3 && isCont b4 then
      if 0x10000 ≤ utf8Val4 b b2 b3 b4 && utf8Val4 b b2 b3 b4 ≤ 0x10FFFF then
        some (utf8Val4 b b2 b3 b4, bs4)
      else none
    else none
  | _ => none

/-- Decode the first scalar of a UTF-8 byte string, returning it with the
remaining bytes; `none` on any malformed sequence. -/
def utf8Step : List Nat → Option (Nat × List Nat)
  | [] => none
  | b :: bs =>
    if b < 0x80 then some (b, bs)
    else if b < 0xC2 then none
    else if b < 0xE0 then utf8Cont1 b bs
    else if b < 0xF0 then utf8Cont2 b bs
    else if b < 0xF5 then utf8Cont3 b bs
    else none

/-- The decode loop, structurally recursive on a fuel bound.  Each step
consumes at least one byte, so with fuel equal to the byte count the
fuel-exhausted arm is unreachable. -/
def utf8DecodeAux : Nat → List Nat → Option PyStr
  | 0, [] => some []
  | 0, _ :: _ => none
  | _ + 1, [] => some []
  | fuel + 1, b :: bs =>
    match utf8Step (b :: bs) with
    | some (c, rest) => (utf8DecodeAux fuel rest).map (fun s => c :: s)
    | none => none

/-- Strict UTF-8 decoding as performed by Python `bytes.decode("utf-8")`:
rejects overlong forms, surrogate code points, values above U+10FFFF and
truncated sequences.  Returns `none` where Python raises `UnicodeDecodeError`. -/
def utf8Decode (bs : List Nat) : Option PyStr := utf8DecodeAux bs.length bs

/-- The cp866 decode table for bytes 0x80..0xFF (Python codec data). -/
def cp866High : List Nat :=
  [1040, 1041, 1042, 1043, 1044, 1045, 1046, 1047, 1048, 1049, 1050, 1051,
   1052, 1053, 1054, 1055, 1056, 1057, 1058, 1059, 1060, 1061, 1062, 1063,
   1064, 1065, 1066, 1067, 1068, 1069, 1070, 1071, 1072, 1073, 1074, 1075,
   1076, 1077, 1078, 1079, 1080, 1081, 1082, 1083, 1084, 1085, 1086, 1087,
   9617, 9618, 9619, 9474, 9508, 9569, 9570, 9558, 9557, 9571, 9553, 9559,
   9565, 9564, 9563, 9488, 9492, 9524, 9516, 9500, 9472, 9532, 9566, 9567,
   9562, 9556, 9577, 9574, 9568, 9552, 9580, 9575, 9576, 9572, 9573, 9561,
   9560, 9554, 9555, 9579, 9578, 9496, 9484, 9608, 9604, 9612, 9616, 9600,
   1088, 1089, 1090, 1091, 1092, 1093, 1094, 1095, 1096, 1097, 1098, 1099,
   1100, 1101, 1102, 1103, 1025, 1105, 1028, 1108, 1031, 1111, 1038, 1118,
   176, 8729, 183, 8730, 8470, 164, 9632, 160]

/-- The cp1251 decode table for bytes 0x80..0xFF (Python codec data);
0x110000 marks the one undefined byte 0x98, on which Python raises. -/
def cp1251High : List Nat :=
  [1026, 1027, 8218, 1107, 8222, 8230, 8224, 8225, 8364, 8240, 1033, 8249,
   1034, 1036, 1035, 1039, 1106, 8216, 8217, 8220, 8221, 8226, 8211, 8212,
   0x110000, 8482, 1113, 8250, 1114, 1116, 1115, 1119, 160, 1038, 1118,
   1032, 164, 1168, 166, 167, 1025, 169, 1028, 171, 172, 173, 174, 1031,
   176, 177, 1030, 1110, 1169, 181, 182, 183, 1105, 8470, 1108, 187, 1112,
   1029, 1109, 1111, 1040, 1041, 1042, 1043, 1044, 1045, 1046, 1047, 1048,
   1049, 1050, 1051, 1052, 1053, 1054, 1055, 1056, 1057, 1058, 1059, 1060,
   1061, 1062, 1063, 1064, 1065, 1066, 1067, 1068, 1069, 1070, 1071, 1072,
   1073, 1074, 1075, 1076, 1077, 1078, 1079, 1080, 1081, 1082, 1083, 1084,
   1085, 1086, 1087, 1088, 1089, 1090, 1091, 1092, 1093, 1094, 1095, 1096,
   1097, 1098, 1099, 1100, 1101, 1102, 1103]

/-- Decode one byte under cp866 (defined on every byte). -/
def cp866Byte (b : Nat) : Option Nat :=
  if b < 0x80 then some b
  else if b < 0x100 then some (cp866High.getD (b - 0x80) 0)
  else none

/-- Decode one byte under cp1251 (byte 0x98 is undefined). -/
def cp1251Byte (b : Nat) : Option Nat :=
  if b < 0x80 then some b
  else if b < 0x100 then
    let v := cp1251High.getD (b - 0x80) 0x110000
    if v = 0x110000 then none else some v
  else none

/-- Decode one byte under latin1 (the identity on bytes). -/
def latin1Byte (b : Nat) : Option Nat := if b < 0x100 then some b else none

/-- Decode a byte string with a single-byte codec, failing if any byte fails. -/
def decodeBytes (f : Nat → Option Nat) : List Nat → Option PyStr
  | [] => some []
  | b :: bs =>
    match f b with
    | none => none
    | some c => (decodeBytes f bs).map (fun s => c :: s)

/-- Python `raw_bytes.decode(encoding)` for the four candidate encodings. -/
def pyDecode : Enc → List Nat → Option PyStr
  | .utf8, bs => utf8Decode bs
  | .cp866, bs => decodeBytes cp866Byte bs
  | .cp1251, bs => decodeBytes cp1251Byte bs
  | .latin1, bs => decodeBytes latin1Byte bs

/-- Python `str.isprintable` on one code point.  Exact on code points below
0x100 (not printable: C0/C1 controls, DEL, NBSP, soft hyphen).  Above 0xFF
the separator code points of the 0x2000 block are the common non-printable
cases; every theorem below only depends on this function below 0x100,
because a string holding a code point at or above 0x100 already satisfies
the non-ASCII disjunct of the acceptance heuristic. -/
def pyPrintableChar (c : Nat) : Bool :=
  if c < 0x100 then
    (0x20 ≤ c && c < 0x7F) || (0xA1 ≤ c && c ≠ 0xAD)
  else
    !((0x2000 ≤ c && c ≤ 0x200F) || c = 0x2028 || c = 0x2029 || c = 0x202F ||
      c = 0x205F || c = 0x3000)

/-- Python `decoded.isprintable()`. -/
def pyIsPrintable (s : PyStr) : Bool := s.all pyPrintableChar

/-- Does the string contain a code point above U+007F. -/
def hasHigh (s : PyStr) : Bool := s.any (fun c => 127 < c)

/-- Python `"\x00" not in decoded`. -/
def noNul (s : PyStr) : Bool := !(s.contains 0)

/-- The acceptance heuristic of `decode_filename`, with Python operator
precedence: the source line reads
`"\x00" not in decoded and decoded.isprintable() or any(ord(c) > 127 ...)`,
which groups as `(no NUL and printable) or has-non-ASCII`. -/
def looksReasonable (s : PyStr) : Bool :=
  (noNul s && pyIsPrintable s) || hasHigh s

/-- Lower-case hex digit of a value below 16. -/
def hexDigit (n : Nat) : Nat := if n < 10 then 48 + n else 87 + n

/-- Python `raw_bytes.hex()`. -/
def bytesHex : List Nat → PyStr
  | [] => []
  | b :: bs => hexDigit (b / 16) :: hexDigit (b % 16) :: bytesHex bs

/-- The synthesized fallback `"unknown_" + raw_bytes.hex()[:32]`. -/
def fallbackName (raw : List Nat) : PyStr := strLit "unknown_" ++ (bytesHex raw).take 32

/-- The candidate loop of `decode_filename`: try the encodings in order,
skipping decode errors and decodes rejected by the heuristic. -/
def decodeLoop (raw : List Nat) : List Enc → Option (PyStr × Enc)
  | [] => none
  | e :: es =>
    match pyDecode e raw with
    | some s => if looksReasonable s then some (s, e) else decodeLoop raw es
    | none => decodeLoop raw es

/-- `decode_filename(raw_bytes, tried_encodings)` from `encoding.py`. -/
def decode_filename_with (encs : List Enc) (raw : List Nat) : PyStr × Option Enc :=
  match decodeLoop raw encs with
  | some (s, e) => (s, some e)
  | none => (fallbackName raw, none)

/-- `decode_filename(raw_bytes)` with the default candidate list. -/
def decode_filename (raw : List Nat) : PyStr × Option Enc :=
  decode_filename_with ENCODINGS raw

/-- One candidate of the declarative first-match reading: the decoded string
paired with its encoding when the candidate decodes and is accepted. -/
def acceptsVia (raw : List Nat) (e : Enc) : Option (PyStr × Enc) :=
  match pyDecode e raw with
  | some s => if looksReasonable s then some (s, e) else none
  | none => none

/-- The acceptance condition exactly as the specification sentence words it:
no NUL, and (fully printable or some code point above U+007F).  Differs from
`looksReasonable` in the placement of parentheses. -/
def claimReasonable (s : PyStr) : Bool :=
  noNul s && (pyIsPrintable s || hasHigh s)

/-- Modelled from the spec: `decode_filename` as the specification sentence
describes it, with the acceptance condition `claimReasonable`; used to
compare the claimed behaviour against the embedded source behaviour. -/
def decodeLoopClaimed (raw : List Nat) : List Enc → Option (PyStr × Enc)
  | [] => none
  | e :: es =>
    match pyDecode e raw with
    | some s => if claimReasonable s then some (s, e) else decodeLoopClaimed raw es
    | none => decodeLoopClaimed raw es

/-- Modelled from the spec: the full claimed `decode_filename`. -/
def decode_filename_claimed (raw : List Nat) : PyStr × Option Enc :=
  match decodeLoopClaimed raw ENCODINGS with
  | some (s, e) => (s, some e)
  | none => (fallbackName raw, none)

/-- Python `filename.encode("latin1")`: defined exactly when every code point
is below 0x100, in which case the bytes are the code points themselves. -/
def latin1Encode : PyStr → Option (List Nat)
  | [] => some []
  | c :: cs =>
    if c < 0x100 then (latin1Encode cs).map (fun bs => c :: bs) else none

/-- `fix_zip_filename(filename)` from `encoding.py`: mojibake repair —
re-encode as latin1 and decode as UTF-8, keeping the original on any
encode or decode error. -/
def fix_zip_filename (s : PyStr) : PyStr :=
  match latin1Encode s with
  | some bs =>
    match utf8Decode bs with
    | some t => t
    | none => s
  | none => s

/-! ## Path model

`pathlib` paths over a symlink-free filesystem: a path component is a
string (`Seg`), an absolute path a component list from the filesystem
root, and `Path.resolve()` the lexical elimination of `..` components. -/

/-- One path component. -/
abbrev Seg := List Nat

/-- An absolute path as a component list from the filesystem root. -/
abbrev AbsPath := List Seg

/-- Split accumulator: components of a string around the slashes. -/
def splitAux : PyStr → Seg → List Seg
  | [], cur => [cur.reverse]
  | c :: cs, cur => if c = 47 then cur.reverse :: splitAux cs [] else splitAux cs (c :: cur)

/-- All slash-separated chunks of a name, empty chunks included. -/
def rawSegs (name : PyStr) : List Seg := splitAux name []

/-- The components of a name as pathlib keeps them: empty chunks and
single-dot chunks dropped, double dots kept. -/
def pathSegs (name : PyStr) : List Seg :=
  (rawSegs name).filter (fun seg => seg ≠ [] && seg ≠ [46])

/-- Does the name denote an absolute path. -/
def isAbsName (name : PyStr) : Bool :=
  match name with
  | c :: _ => c = 47
  | [] => false

/-- Python `base / name`: an absolute right operand discards the base. -/
def joinSegs (base : AbsPath) (name : PyStr) : AbsPath :=
  if isAbsName name then pathSegs name else base ++ pathSegs name

/-- Lexical `Path.resolve()`: eliminate `..` components; `..` at the
filesystem root stays at the root. -/
def resolveSegs (p : AbsPath) : AbsPath :=
  p.foldl (fun acc seg => if seg = [46, 46] then acc.dropLast else acc ++ [seg]) []

/-- Is the first component list a prefix of the second
(`target.is_relative_to(base)` after resolution). -/
def listStarts : AbsPath → AbsPath → Bool
  | [], _ => true
  | _ :: _, [] => false
  | a :: as, b :: bs => if a = b then listStarts as bs else false

/-- `is_safe_path(base_dir, target_path)` from `utils.py`: resolve both
paths and test containment.  The source returns False on a resolution
error; lexical resolution is total, so that arm has no counterpart. -/
def is_safe_path (base : AbsPath) (target : AbsPath) : Bool :=
  listStarts (resolveSegs base) (resolveSegs target)

/-- The resolved on-disk location of `root / name`. -/
def diskPath (root : AbsPath) (name : PyStr) : AbsPath := resolveSegs (joinSegs root name)

/-- `check_disk_space(target_dir, required_bytes, safety_margin)` from
`utils.py`; the free byte count reported by `shutil.disk_usage(target_dir)`
is an input of the model. -/
def check_disk_space (freeBytes requiredBytes safetyMargin : Nat) : Bool × Nat :=
  (decide (requiredBytes + safetyMargin ≤ freeBytes), freeBytes)

/-- Python `Path(name).name`: the last kept component. -/
def nameOf (name : PyStr) : Seg := ((pathSegs name).getLast?).getD []

/-- Python `Path(name).parent` as a component list. -/
def parentSegs (name : PyStr) : List Seg := (pathSegs name).dropLast

/-- Index of the last dot of a component, if any. -/
def rfindDot (seg : Seg) : Option Nat :=
  match seg.reverse.findIdx? (fun c => c = 46) with
  | some j => some (seg.length - 1 - j)
  | none => none

/-- Python `Path(name).stem` of one component. -/
def pyStem (seg : Seg) : Seg :=
  match rfindDot seg with
  | some i => if 0 < i ∧ i < seg.length - 1 then seg.take i else seg
  | none => seg

/-- Python `Path(name).suffix` of one component. -/
def pySuffix (seg : Seg) : Seg :=
  match rfindDot seg with
  | some i => if 0 < i ∧ i < seg.length - 1 then seg.drop i else []
  | none => []

/-- Join components back into a relative name string. -/
def joinSlash : List Seg → PyStr
  | [] => []
  | [s] => s
  | s :: rest => s ++ 47 :: joinSlash rest

/-! ## collision.py -/

/-- The `CollisionMethod` enumeration. -/
inductive CollisionMethod
  | SIZE
  | HASH_SHA256
  | HASH_FAST
deriving DecidableEq, Repr

/-- The tracker state: `method` plus the relative-path → (size, hash) map,
modelled as an insertion-ordered association list with unique keys, as a
Python dict.  A digest is an abstract value (the source keeps hexdigest
strings). -/
structure CollisionTracker where
  method : CollisionMethod
  files : List (PyStr × (Nat × Option (List Nat)))
deriving DecidableEq, Repr

/-- Python dict assignment: replace in place or append a new key. -/
def dictSet (k : PyStr) (v : Nat × Option (List Nat)) :
    List (PyStr × (Nat × Option (List Nat))) → List (PyStr × (Nat × Option (List Nat)))
  | [] => [(k, v)]
  | (k2, v2) :: rest => if k = k2 then (k, v) :: rest else (k2, v2) :: dictSet k v rest

/-- Python dict lookup on the association list. -/
def dictGet (k : PyStr) :
    List (PyStr × (Nat × Option (List Nat))) → Option (Nat × Option (List Nat))
  | [] => none
  | (k2, v2) :: rest => if k = k2 then some v2 else dictGet k rest

/-- `CollisionTracker._compute_hash`: the empty digest under SIZE (the
source returns the empty string), otherwise the digest of the file's
bytes.  The concrete algorithm (xxhash, blake2b or sha256) is the
parameter `hashFn`. -/
def compute_hash (hashFn : List Nat → List Nat) (method : CollisionMethod)
    (content : List Nat) : List Nat :=
  match method with
  | .SIZE => []
  | _ => hashFn content

/-- `CollisionTracker.check_collision(relative_path, file_path)`: the file
at `file_path` is its byte content; `stat().st_size` is its length.
Returns the (is_collision, files_are_identical) pair and the tracker
after the call. -/
def check_collision (hashFn : List Nat → List Nat) (t : CollisionTracker)
    (rel : PyStr) (content : List Nat) : (Bool × Bool) × CollisionTracker :=
  match dictGet rel t.files with
  | none =>
    let size := content.length
    let fh := if t.method = .SIZE then none else some (compute_hash hashFn t.method content)
    ((false, false), { t with files := dictSet rel (size, fh) t.files })
  | some (existingSize, existingHash) =>
    let currentSize := content.length
    if currentSize ≠ existingSize then ((true, false), t)
    else if t.method = .SIZE then ((true, true), t)
    else
      let currentHash := compute_hash hashFn t.method content
      ((true, decide (some currentHash = existingHash)), t)

/-- `CollisionTracker.register_file(relative_path, file_path)`. -/
def register_file (hashFn : List Nat → List Nat) (t : CollisionTracker)
    (rel : PyStr) (content : List Nat) : CollisionTracker :=
  let fh := if t.method = .SIZE then none else some (compute_hash hashFn t.method content)
  { t with files := dictSet rel (content.length, fh) t.files }

/-- Decimal digit string of a counter, by fuel-bounded division (the fuel
`n + 1` always suffices since `n / 10 < n` for `n ≥ 10`). -/
def decReprAux : Nat → Nat → List Nat
  | 0, _ => []
  | fuel + 1, n => if n < 10 then [48 + n] else decReprAux fuel (n / 10) ++ [48 + n % 10]

/-- Python `f"{n}"` for a natural number. -/
def decRepr (n : Nat) : PyStr := decReprAux (n + 1) n

/-- Value of a decimal digit string (left fold), inverse of `decRepr`. -/
def decVal (ds : List Nat) : Nat := ds.foldl (fun a d => a * 10 + (d - 48)) 0

/-- The probe name `f"{stem}-{counter}{suffix}"` of `generate_unique_name`. -/
def counterName (stem sfx : Seg) (n : Nat) : Seg := stem ++ 45 :: (decRepr n ++ sfx)

/-- The absolute parent directory probed by `generate_unique_name`:
`base_path / Path(original_name).parent`. -/
def genParentAbs (root : AbsPath) (original : PyStr) : AbsPath :=
  if isAbsName original then parentSegs original else root ++ parentSegs original

/-- The absolute location probed for counter `n`:
`(base_path / original.parent / new_name)`, resolved as `Path.exists`
resolves it. -/
def genCandidate (root : AbsPath) (original : PyStr) (n : Nat) : AbsPath :=
  resolveSegs (genParentAbs root original ++
    [counterName (pyStem (nameOf original)) (pySuffix (nameOf original)) n])

/-- The probe loop of `generate_unique_name`: smallest counter from
`counter` on whose candidate is not on disk.  The source loops without
bound; the model carries fuel, and fuel `fs.length + 1` is never
exhausted (`genLoop_finds` below). -/
def genLoop (fs : List AbsPath) (root : AbsPath) (original : PyStr) :
    Nat → Nat → Nat
  | 0, counter => counter
  | fuel + 1, counter =>
    if genCandidate root original counter ∈ fs then
      genLoop fs root original fuel (counter + 1)
    else counter

/-- The counter finally used by `generate_unique_name`. -/
def genCounter (fs : List AbsPath) (root : AbsPath) (original : PyStr) : Nat :=
  genLoop fs root original (fs.length + 1) 1

/-- `generate_unique_name(base_path, original_name)` from `collision.py`:
the returned relative path `Path(original_name).parent / new_name`,
rendered as the string the extractor stores.  The filesystem `fs` is the
list of resolved paths present on disk. -/
def generate_unique_name (fs : List AbsPath) (root : AbsPath) (original : PyStr) : PyStr :=
  let seg := counterName (pyStem (nameOf original)) (pySuffix (nameOf original))
    (genCounter fs root original)
  (if isAbsName original then [47] else []) ++ joinSlash (parentSegs original ++ [seg])

/-! ## extractor.py -/

/-- The structured content of one user-facing error message; the source
formats localized strings, the model keeps the payload data. -/
inductive EMsg
  | unsafePath (name : PyStr)
  | extractError (name : PyStr)
  | corruptedArchive (msg : PyStr)
  | unexpectedError (msg : PyStr)
  | insufficientSpace (needBytes availBytes : Nat)
deriving DecidableEq, Repr

/-- One archive entry as the zip reader presents it: the already-decoded
name, the directory flag, the header size used for the preflight sum, and
the decompressed bytes the staged write produces. -/
structure Entry where
  filename : PyStr
  is_dir : Bool
  file_size : Nat
  content : List Nat
deriving DecidableEq, Repr

/-- Success flags of the fallible filesystem operations of one entry: the
staged write, and the rename of the staged file to its destination.
mkdir, stat and unlink are modelled as always succeeding. -/
structure EntryIO where
  writeOk : Bool
  renameOk : Bool
deriving DecidableEq, Repr

/-- The state threaded through one archive's extraction: the fields of
`ExtractionResult` plus the output tree and the shared tracker. -/
structure ExtState where
  success : Bool
  files_extracted : Nat
  files_skipped : Nat
  files_renamed : Nat
  size_compressed : Nat
  size_uncompressed : Nat
  errors : List EMsg
  collisions : List (PyStr × PyStr)
  disk : List AbsPath
  tracker : CollisionTracker
deriving DecidableEq, Repr

/-- The extractor configuration: the resolved output directory and the
digest function of the collision method. -/
structure Env where
  root : AbsPath
  hashFn : List Nat → List Nat

/-- Record a path in the output tree (a set: writing over an existing
file leaves the tree unchanged). -/
def fsAdd (p : AbsPath) (fs : List AbsPath) : List AbsPath :=
  if p ∈ fs then fs else p :: fs

/-- Remove a path from the output tree. -/
def fsDel (p : AbsPath) (fs : List AbsPath) : List AbsPath := fs.erase p

/-- The staging location `target_path.parent / (".tmp_" + target_path.name)`
of `_extract_file`, resolved to its on-disk location. -/
def tempAbs (root : AbsPath) (filename : PyStr) : AbsPath :=
  resolveSegs ((joinSegs root filename).dropLast ++
    [strLit ".tmp_" ++ ((joinSegs root filename).getLast?.getD [])])

/-- `Extractor._extract_file(zf, info, result)`: decode and repair the
name, guard the target path, stage the bytes, classify against the
tracker and place or discard the staged file.  Returns the state after
the call together with the exception propagating out of it, if any (the
temporary file is removed before re-raising, as in the source's cleanup
handler).  The name-decoding try/except of the source falls back to
`decode_filename` only when `fix_zip_filename` raises, which the total
embedded function never does, so that arm has no counterpart here. -/
def extract_file (env : Env) (e : Entry) (io : EntryIO) (s : ExtState) :
    ExtState × Option EMsg :=
  let filename := fix_zip_filename e.filename
  if !(is_safe_path env.root (joinSegs env.root filename)) then
    ({ s with errors := s.errors ++ [EMsg.unsafePath filename] }, none)
  else
    let temp := tempAbs env.root filename
    let disk1 := fsAdd temp s.disk
    if !io.writeOk then
      ({ s with disk := fsDel temp disk1 }, some (EMsg.extractError e.filename))
    else
      let checked := check_collision env.hashFn s.tracker filename e.content
      if checked.1.1 then
        if checked.1.2 then
          ({ s with
              disk := fsDel temp disk1
              tracker := checked.2
              files_skipped := s.files_skipped + 1 }, none)
        else
          let newRel := generate_unique_name disk1 env.root filename
          if !io.renameOk then
            ({ s with disk := fsDel temp disk1, tracker := checked.2 },
             some (EMsg.extractError e.filename))
          else
            ({ s with
                disk := fsAdd (diskPath env.root newRel) (fsDel temp disk1)
                tracker := register_file env.hashFn checked.2 newRel e.content
                files_renamed := s.files_renamed + 1
                collisions := s.collisions ++ [(filename, newRel)] }, none)
      else
        if !io.renameOk then
          ({ s with disk := fsDel temp disk1, tracker := checked.2 },
           some (EMsg.extractError e.filename))
        else
          ({ s with
              disk := fsAdd (diskPath env.root filename) (fsDel temp disk1)
              tracker := checked.2
              files_extracted := s.files_extracted + 1 }, none)

/-- The per-entry loop of `extract_archive`: directory entries are
skipped; an exception from `_extract_file` is recorded as an error and
flips `success`, and the loop continues with the remaining entries. -/
def processEntries (env : Env) : List (Entry × EntryIO) → ExtState → ExtState
  | [], s => s
  | (e, io) :: rest, s =>
    if e.is_dir then processEntries env rest s
    else
      match extract_file env e io s with
      | (s2, none) => processEntries env rest s2
      | (s2, some m) =>
        processEntries env rest { s2 with errors := s2.errors ++ [m], success := false }

/-- Outcome of `zipfile.ZipFile(archive_path, "r")` and the processing
block it opens: the entry list with each entry's I/O oracle, a
`BadZipFile` error, or another exception raised inside the `try`. -/
inductive OpenOutcome
  | opened (entries : List (Entry × EntryIO))
  | badZip (msg : PyStr)
  | raiseOther (msg : PyStr)

/-- Result of a call that may raise: either a returned `ExtState` or a
Python exception escaping to the caller. -/
inductive PyResult
  | ok (s : ExtState)
  | exc
deriving DecidableEq, Repr

/-- A fresh result record over the shared output tree and tracker. -/
def initState (disk0 : List AbsPath) (tracker0 : CollisionTracker) : ExtState :=
  { success := true, files_extracted := 0, files_skipped := 0, files_renamed := 0,
    size_compressed := 0, size_uncompressed := 0, errors := [], collisions := [],
    disk := disk0, tracker := tracker0 }

/-- `Extractor.extract_archive(archive_path)`.  `statSize` is the result
of `archive_path.stat().st_size` — `none` when stat raises (missing or
unreadable archive file); that call sits before the `try` block in the
source, so its failure escapes to the caller as an exception.
`freeBytes` is the free space `shutil.disk_usage` reports for the output
filesystem. -/
def extract_archive (env : Env) (safety_margin freeBytes : Nat)
    (statSize : Option Nat) (zf : OpenOutcome)
    (disk0 : List AbsPath) (tracker0 : CollisionTracker) : PyResult :=
  match statSize with
  | none => PyResult.exc
  | some sz =>
    let s0 := { initState disk0 tracker0 with size_compressed := sz }
    match zf with
    | .badZip m =>
      PyResult.ok { s0 with success := false, errors := [EMsg.corruptedArchive m] }
    | .raiseOther m =>
      PyResult.ok { s0 with success := false, errors := [EMsg.unexpectedError m] }
    | .opened entries =>
      let total := (entries.map (fun p => p.1.file_size)).sum
      let s1 := { s0 with size_uncompressed := total }
      if (check_disk_space freeBytes total safety_margin).1 then
        PyResult.ok (processEntries env entries s1)
      else
        PyResult.ok { s1 with
            success := false
            errors := [EMsg.insufficientSpace (total + safety_margin) freeBytes] }

/-- The three-counter-plus-errors total of a result, the quantity each
processed non-directory entry raises by exactly one. -/
def countOf (s : ExtState) : Nat :=
  s.files_extracted + s.files_skipped + s.files_renamed + s.errors.length

/-- The tracker invariant of the data model: at most one record per
relative path, and a record has no fingerprint exactly under the
size-only method. -/
def trackerInv (t : CollisionTracker) : Prop :=
  t.files.Pairwise (fun a b => a.1 ≠ b.1) ∧
  ∀ rec ∈ t.files, (rec.2.2 = none ↔ t.method = CollisionMethod.SIZE)

/-! ### Concrete fixtures for witnesses and counterexamples -/

/-- Fixture: an extractor rooted at `/out` whose digest function is the
identity on the content bytes. -/
def outEnv : Env := { root := [strLit "out"], hashFn := fun c => c }

/-- Fixture: a fresh tracker under the fast-hash method. -/
def fastTracker0 : CollisionTracker := { method := .HASH_FAST, files := [] }

/-- Fixture: an entry named `x-1.txt` whose staged rename fails. -/
def entryStaged : Entry × EntryIO :=
  ({ filename := strLit "x-1.txt", is_dir := false, file_size := 1, content := [65] }, { writeOk := true, renameOk := false })

/-- Fixture: an entry named `x.txt`, two bytes, all I/O succeeding. -/
def entryFirst : Entry × EntryIO :=
  ({ filename := strLit "x.txt", is_dir := false, file_size := 2, content := [66, 66] }, { writeOk := true, renameOk := true })

/-- Fixture: a second entry named `x.txt` with different one-byte content. -/
def entrySecond : Entry × EntryIO :=
  ({ filename := strLit "x.txt", is_dir := false, file_size := 1, content := [67] }, { writeOk := true, renameOk := true })

/-- Fixture: the path-traversal entry of the specification scenario. -/
def entryTraversal : Entry × EntryIO :=
  ({ filename := strLit "../../etc/passwd", is_dir := false, file_size := 10, content := [65] }, { writeOk := true, renameOk := true })

/-- Fixture: an entry whose staged write fails. -/
def entryWriteFail : Entry × EntryIO :=
  ({ filename := strLit "y.txt", is_dir := false, file_size := 1, content := [68] }, { writeOk := false, renameOk := true })

/-- Fixture: a 500 MiB entry for the disk-space scenario. -/
def entryBig : Entry × EntryIO :=
  ({ filename := strLit "big.bin", is_dir := false, file_size := 500 * 1024 * 1024, content := [] }, { writeOk := true, renameOk := true })

/-- Fixture: a directory entry. -/
def entryDir : Entry × EntryIO :=
  ({ filename := strLit "data/", is_dir := true, file_size := 0, content := [] }, { writeOk := true, renameOk := true })

/-! ## Theorems about encoding.py -/

theorem decodeLoop_eq_findSome (raw : List Nat) (l : List Enc) :
    decodeLoop raw l = l.findSome? (acceptsVia raw) := by
  induction l with
  | nil => rfl
  | cons e es ih =>
    cases hp : pyDecode e raw with
    | none => simp [decodeLoop, List.findSome?, acceptsVia, hp, ih]
    | some s =>
      by_cases hl : looksReasonable s
      · simp [decodeLoop, List.findSome?, acceptsVia, hp, hl]
      · simp [decodeLoop, List.findSome?, acceptsVia, hp, hl, ih]

/-- C3 amended: with the acceptance condition read with Python's operator
precedence — accept a decode that either (contains no NUL and is fully
printable) or contains a code point above U+007F — `decode_filename`
returns the first qualifying candidate's decode paired with that encoding,
and otherwise the synthesized name `unknown_` plus the first 32 hex digits
of the raw bytes with no encoding; being a total function, it never
raises. -/
theorem decode_filename_first_accepted (raw : List Nat) :
    decode_filename raw =
      match ENCODINGS.findSome? (acceptsVia raw) with
      | some (s, e) => (s, some e)
      | none => (strLit "unknown_" ++ (bytesHex raw).take 32, none) := by
  rw [decode_filename, decode_filename_with, decodeLoop_eq_findSome]
  rfl

/-- C3 counterexample: on the byte string `00 FF` no candidate decode is
free of NUL, so the claim as stated demands the synthesized fallback name;
the code instead accepts the cp866 decode `U+0000 U+00A0` because the
non-ASCII disjunct alone satisfies its condition. -/
theorem decode_filename_claim_counterexample :
    decode_filename [0, 255] = ([0, 160], some Enc.cp866) ∧
    (decode_filename [0, 255]).1.contains 0 = true ∧
    decode_filename_claimed [0, 255] = (strLit "unknown_00ff", none) ∧
    decode_filename [0, 255] ≠ decode_filename_claimed [0, 255] := by
  decide

theorem latin1Encode_eq_self (s : PyStr) (h : ∀ c ∈ s, c < 0x100) :
    latin1Encode s = some s := by
  induction s with
  | nil => rfl
  | cons c cs ih =>
    have hc : c < 0x100 := h c (List.mem_cons_self c cs)
    have hcs : latin1Encode cs = some cs := ih (fun x hx => h x (List.mem_cons_of_mem c hx))
    simp [latin1Encode, hc, hcs]

theorem latin1Encode_none (s : PyStr) (h : ∃ c ∈ s, 0x100 ≤ c) :
    latin1Encode s = none := by
  induction s with
  | nil => simp at h
  | cons c cs ih =>
    rcases h with ⟨x, hx, hge⟩
    rcases List.mem_cons.mp hx with rfl | hx2
    · simp [latin1Encode, Nat.not_lt.mpr hge]
    · by_cases hc : c < 0x100
      · simp [latin1Encode, hc, ih ⟨x, hx2, hge⟩]
      · simp [latin1Encode, hc]

/-- C7: `fix_zip_filename` returns the UTF-8 decoding of the string's
latin1 encoding when the string encodes to latin1 (all code points below
U+0100) and those bytes are valid UTF-8 — the latin1 bytes being the code
points themselves — and returns the input unchanged otherwise (a code
point at or above U+0100, or bytes that are not valid UTF-8). -/
theorem fix_zip_filename_spec (s : PyStr) :
    ((∀ c ∈ s, c < 0x100) → fix_zip_filename s = (utf8Decode s).getD s) ∧
    ((∃ c ∈ s, 0x100 ≤ c) → fix_zip_filename s = s) := by
  constructor
  · intro h
    rw [fix_zip_filename, latin1Encode_eq_self s h]
    cases hu : utf8Decode s <;> simp [hu]
  · intro h
    rw [fix_zip_filename, latin1Encode_none s h]

/-- Witness for C7: the mojibake bytes of the Cyrillic letter pe (UTF-8
`D0 BF` read as latin1) are repaired to the single code point U+043F. -/
theorem fix_zip_filename_spec_witness :
    (∀ c ∈ [208, 191], c < 0x100) ∧
    fix_zip_filename [208, 191] = (utf8Decode [208, 191]).getD [208, 191] ∧
    fix_zip_filename [208, 191] = [1087] ∧
    fix_zip_filename [256, 65] = [256, 65] :=
  ⟨by decide, (fix_zip_filename_spec [208, 191]).1 (by decide), by decide,
   (fix_zip_filename_spec [256, 65]).2 ⟨256, by decide⟩⟩

theorem utf8Step_high_or_copy (b : Nat) (bs : List Nat) (c : Nat) (rest : List Nat)
    (h : utf8Step (b :: bs) = some (c, rest)) :
    (c = b ∧ rest = bs ∧ b < 0x80) ∨ 127 < c := by
  simp only [utf8Step] at h
  split_ifs at h with h1 h2 h3 h4 h5
  · exact Or.inl ⟨(Prod.mk.injEq _ _ _ _ ▸ Option.some.inj h).1.symm ▸ rfl,
      ((Prod.mk.inj (Option.some.inj h)).2).symm ▸ rfl, h1⟩
  · rcases bs with _ | ⟨b2, bs2⟩
    · simp [utf8Cont1] at h
    · simp only [utf8Cont1] at h
      split_ifs at h with hc
      · have := (Prod.mk.inj (Option.some.inj h)).1
        refine Or.inr ?_
        subst this
        simp only [utf8Val2]
        omega
  · rcases bs with _ | ⟨b2, _ | ⟨b3, bs3⟩⟩
    · simp [utf8Cont2] at h
    · simp [utf8Cont2] at h
    · simp only [utf8Cont2] at h
      split_ifs at h with hc hg
      · have := (Prod.mk.inj (Option.some.inj h)).1
        refine Or.inr ?_
        subst this
        simp only [Bool.and_eq_true, decide_eq_true_eq] at hg
        simp only [utf8Val3] at hg ⊢
        omega
  · rcases bs with _ | ⟨b2, _ | ⟨b3, _ | ⟨b4, bs4⟩⟩⟩
    · simp [utf8Cont3] at h
    · simp [utf8Cont3] at h
    · simp [utf8Cont3] at h
    · simp only [utf8Cont3] at h
      split_ifs at h with hc hg
      · have := (Prod.mk.inj (Option.some.inj h)).1
        refine Or.inr ?_
        subst this
        simp only [Bool.and_eq_true, decide_eq_true_eq] at hg
        simp only [utf8Val4] at hg ⊢
        omega

theorem utf8DecodeAux_high :
    ∀ (fuel : Nat) (bs : List Nat) (s : PyStr), utf8DecodeAux fuel bs = some s →
      (∃ b ∈ bs, 128 ≤ b) → hasHigh s = true := by
  intro fuel
  induction fuel with
  | zero =>
    intro bs s hd hb
    rcases bs with _ | ⟨b, rest⟩
    · simp at hb
    · simp [utf8DecodeAux] at hd
  | succ n ih =>
    intro bs s hd hb
    rcases bs with _ | ⟨b, rest0⟩
    · simp at hb
    · simp only [utf8DecodeAux] at hd
      cases hstep : utf8Step (b :: rest0) with
      | none => rw [hstep] at hd; simp at hd
      | some cr =>
        obtain ⟨c, rest⟩ := cr
        rw [hstep] at hd
        simp only [Option.map_eq_some'] at hd
        obtain ⟨s', hs', rfl⟩ := hd
        rcases utf8Step_high_or_copy b rest0 c rest hstep with ⟨hc, hr, hlow⟩ | hhigh
        · subst hc; subst hr
          obtain ⟨x, hx, hxge⟩ := hb
          rcases List.mem_cons.mp hx with rfl | hx2
          · omega
          · have hh := ih _ _ hs' ⟨x, hx2, hxge⟩
            show (decide (127 < c) || hasHigh s') = true
            rw [hh, Bool.or_true]
        · show (decide (127 < c) || hasHigh s') = true
          rw [decide_eq_true hhigh, Bool.true_or]

theorem utf8Decode_high (bs : List Nat) (s : PyStr) (hd : utf8Decode bs = some s)
    (hb : ∃ b ∈ bs, 128 ≤ b) : hasHigh s = true :=
  utf8DecodeAux_high bs.length bs s hd hb

set_option maxRecDepth 4000 in
theorem cp866Byte_isSome : ∀ b < 256, (cp866Byte b).isSome = true := by decide

set_option maxRecDepth 4000 in
theorem cp866Byte_high : ∀ b < 256, 128 ≤ b → 127 < (cp866Byte b).getD 0 := by decide

theorem decodeBytes_cp866 (bs : List Nat) (hb : ∀ b ∈ bs, b < 256) :
    ∃ s, decodeBytes cp866Byte bs = some s ∧
      ((∃ b ∈ bs, 128 ≤ b) → hasHigh s = true) := by
  induction bs with
  | nil => exact ⟨[], rfl, by simp⟩
  | cons b rest ih =>
    have hb1 : b < 256 := hb b (List.mem_cons_self _ _)
    obtain ⟨s', hs', hh'⟩ := ih (fun x hx => hb x (List.mem_cons_of_mem _ hx))
    obtain ⟨c, hc⟩ := Option.isSome_iff_exists.mp (cp866Byte_isSome b hb1)
    refine ⟨c :: s', ?_, ?_⟩
    · simp [decodeBytes, hc, hs']
    · rintro ⟨x, hx, hxge⟩
      rcases List.mem_cons.mp hx with rfl | hx2
      · have h127 := cp866Byte_high x hb1 hxge
        rw [hc] at h127
        simp only [Option.getD_some] at h127
        show (decide (127 < c) || hasHigh s') = true
        rw [decide_eq_true h127, Bool.true_or]
      · have hh := hh' ⟨x, hx2, hxge⟩
        show (decide (127 < c) || hasHigh s') = true
        rw [hh, Bool.or_true]

theorem decodeBytes_latin1_id (bs : List Nat) (hb : ∀ b ∈ bs, b < 256) :
    decodeBytes latin1Byte bs = some bs := by
  induction bs with
  | nil => rfl
  | cons b rest ih =>
    have hb1 : b < 256 := hb b (List.mem_cons_self _ _)
    have := ih (fun x hx => hb x (List.mem_cons_of_mem _ hx))
    simp [decodeBytes, latin1Byte, hb1, this]

theorem bytesHex_low (raw : List Nat) (hb : ∀ b ∈ raw, b < 256) :
    ∀ c ∈ bytesHex raw, c < 128 := by
  induction raw with
  | nil => intro c hc; simp [bytesHex] at hc
  | cons b rest ih =>
    intro c hc
    have hb1 : b < 256 := hb b (List.mem_cons_self _ _)
    rcases List.mem_cons.mp hc with rfl | h
    · unfold hexDigit
      split_ifs <;> omega
    · rcases List.mem_cons.mp h with rfl | h'
      · unfold hexDigit
        split_ifs <;> omega
      · exact ih (fun x hx => hb x (List.mem_cons_of_mem _ hx)) c h'

theorem unknownMarker_low : ∀ c ∈ strLit "unknown_", c < 128 := by decide

theorem fallbackName_low (raw : List Nat) (hb : ∀ b ∈ raw, b < 256) :
    ∀ c ∈ fallbackName raw, c < 128 := by
  intro c hc
  rcases List.mem_append.mp hc with h1 | h2
  · exact unknownMarker_low c h1
  · exact bytesHex_low raw hb c (List.mem_of_mem_take h2)

/-- C10: on a byte string containing a byte at or above 0x80,
`decode_filename` with the default candidate list never falls back to the
synthesized `unknown_` name: some candidate is always accepted (the first
accepted one is utf-8 or cp866), the returned encoding is non-None, and the
latin1 candidate in particular decodes every such byte string with a code
point above U+007F that satisfies the acceptance heuristic. -/
theorem decode_filename_no_fallback (raw : List Nat)
    (hb : ∀ b ∈ raw, b < 256) (hh : ∃ b ∈ raw, 128 ≤ b) :
    (decode_filename raw).2.isSome = true ∧
    (decode_filename raw).1 ≠ fallbackName raw ∧
    (∃ s, pyDecode Enc.latin1 raw = some s ∧ looksReasonable s = true) := by
  have hlat : pyDecode Enc.latin1 raw = some raw := decodeBytes_latin1_id raw hb
  have hrawhigh : hasHigh raw = true := by
    obtain ⟨b, hbm, hbge⟩ := hh
    simp only [hasHigh, List.any_eq_true, decide_eq_true_eq]
    exact ⟨b, hbm, by omega⟩
  have key : ∃ s e, decodeLoop raw ENCODINGS = some (s, e) ∧ hasHigh s = true := by
    cases hu : utf8Decode raw with
    | some s =>
      have hs : hasHigh s = true := utf8Decode_high raw s hu hh
      have hl : looksReasonable s = true := by simp [looksReasonable, hs]
      refine ⟨s, Enc.utf8, ?_, hs⟩
      simp [ENCODINGS, decodeLoop, pyDecode, hu, hl]
    | none =>
      obtain ⟨s2, hs2, hh2⟩ := decodeBytes_cp866 raw hb
      have hhs2 := hh2 hh
      have hl2 : looksReasonable s2 = true := by simp [looksReasonable, hhs2]
      refine ⟨s2, Enc.cp866, ?_, hhs2⟩
      simp [ENCODINGS, decodeLoop, pyDecode, hu, hs2, hl2]
  obtain ⟨s, e, hloop, hsh⟩ := key
  refine ⟨?_, ?_, raw, hlat, by simp [looksReasonable, hrawhigh]⟩
  · simp [decode_filename, decode_filename_with, hloop]
  · simp only [decode_filename, decode_filename_with, hloop]
    intro heq
    simp only [hasHigh, List.any_eq_true, decide_eq_true_eq] at hsh
    obtain ⟨x, hx, h127⟩ := hsh
    have hlow := fallbackName_low raw hb x (heq ▸ hx)
    omega

/-- Witness for C10 at the concrete byte string `FF`. -/
theorem decode_filename_no_fallback_witness :
    (∀ b ∈ [255], b < 256) ∧ (∃ b ∈ [255], 128 ≤ b) ∧
    ((decode_filename [255]).2.isSome = true ∧
     (decode_filename [255]).1 ≠ fallbackName [255] ∧
     (∃ s, pyDecode Enc.latin1 [255] = some s ∧ looksReasonable s = true)) :=
  ⟨by decide, ⟨255, by decide, by decide⟩,
   decode_filename_no_fallback [255] (by decide) ⟨255, by decide, by decide⟩⟩

/-! ## Theorems about collision.py: generate_unique_name (C6) -/


theorem decVal_append_digit (xs : List Nat) (d : Nat) :
    decVal (xs ++ [d]) = decVal xs * 10 + (d - 48) := by
  simp [decVal, List.foldl_append]

theorem decReprAux_val : ∀ (fuel n : Nat), n < 10 ^ fuel → decVal (decReprAux fuel n) = n := by
  intro fuel
  induction fuel with
  | zero =>
    intro n h
    have hn : n = 0 := by simpa using h
    subst hn
    rfl
  | succ f ih =>
    intro n h
    by_cases h10 : n < 10
    · simp [decReprAux, h10, decVal]
    · have hdiv : n / 10 < 10 ^ f := by
        rw [pow_succ] at h
        omega
      rw [decReprAux, if_neg h10, decVal_append_digit, ih (n / 10) hdiv]
      omega

theorem decVal_decRepr (n : Nat) : decVal (decRepr n) = n := by
  refine decReprAux_val (n + 1) n ?_
  calc n < 10 ^ n := Nat.lt_pow_self (by norm_num) n
  _ ≤ 10 ^ (n + 1) := Nat.pow_le_pow_right (by norm_num) (Nat.le_succ n)

theorem decRepr_inj (a b : Nat) (h : decRepr a = decRepr b) : a = b := by
  have := congrArg decVal h
  rwa [decVal_decRepr, decVal_decRepr] at this

theorem counterName_inj (stem sfx : Seg) (a b : Nat)
    (h : counterName stem sfx a = counterName stem sfx b) : a = b := by
  unfold counterName at h
  have h1 := List.append_cancel_left h
  have h2 := List.cons_injective h1
  exact decRepr_inj a b (List.append_cancel_right h2)

theorem decReprAux_digits : ∀ (fuel n d : Nat), d ∈ decReprAux fuel n → 48 ≤ d ∧ d ≤ 57 := by
  intro fuel
  induction fuel with
  | zero => intro n d hd; simp [decReprAux] at hd
  | succ f ih =>
    intro n d hd
    rw [decReprAux] at hd
    by_cases h10 : n < 10
    · rw [if_pos h10] at hd
      rcases List.mem_cons.mp hd with rfl | h
      · omega
      · simp at h
    · rw [if_neg h10] at hd
      rcases List.mem_append.mp hd with h | h
      · exact ih (n / 10) d h
      · rcases List.mem_cons.mp h with rfl | h'
        · have := Nat.mod_lt n (show 0 < 10 by norm_num)
          omega
        · simp at h'

theorem mem45_counterName (stem sfx : Seg) (n : Nat) : 45 ∈ counterName stem sfx n := by
  unfold counterName
  exact List.mem_append_right _ (List.mem_cons_self _ _)

theorem counterName_ne_dotdot (stem sfx : Seg) (n : Nat) :
    counterName stem sfx n ≠ [46, 46] := by
  intro h
  have := mem45_counterName stem sfx n
  rw [h] at this
  simp at this

theorem resolveSegs_append_one (p : AbsPath) (seg : Seg) (h : seg ≠ [46, 46]) :
    resolveSegs (p ++ [seg]) = resolveSegs p ++ [seg] := by
  simp [resolveSegs, List.foldl_append, h]

theorem genCandidate_eq (root : AbsPath) (original : PyStr) (n : Nat) :
    genCandidate root original n =
      resolveSegs (genParentAbs root original) ++
        [counterName (pyStem (nameOf original)) (pySuffix (nameOf original)) n] := by
  unfold genCandidate
  exact resolveSegs_append_one _ _ (counterName_ne_dotdot _ _ _)

theorem genCandidate_inj (root : AbsPath) (original : PyStr) (a b : Nat)
    (h : genCandidate root original a = genCandidate root original b) : a = b := by
  rw [genCandidate_eq, genCandidate_eq] at h
  have h1 := List.append_cancel_left h
  have h2 : counterName (pyStem (nameOf original)) (pySuffix (nameOf original)) a =
      counterName (pyStem (nameOf original)) (pySuffix (nameOf original)) b := by
    injection h1
  exact counterName_inj _ _ _ _ h2

theorem gen_exists (fs : List AbsPath) (root : AbsPath) (original : PyStr) :
    ∃ n, 1 ≤ n ∧ n ≤ fs.length + 1 ∧ genCandidate root original n ∉ fs := by
  by_contra hcon
  push_neg at hcon
  have hmap : ∀ n ∈ Finset.Icc 1 (fs.length + 1),
      genCandidate root original n ∈ fs.toFinset := by
    intro n hn
    rw [List.mem_toFinset]
    exact hcon n (Finset.mem_Icc.mp hn).1 (Finset.mem_Icc.mp hn).2
  have hcard : fs.toFinset.card < (Finset.Icc 1 (fs.length + 1)).card := by
    rw [Nat.card_Icc]
    have := fs.toFinset_card_le
    omega
  obtain ⟨a, _, b, _, hne, heq⟩ :=
    Finset.exists_ne_map_eq_of_card_lt_of_maps_to hcard hmap
  exact hne (genCandidate_inj root original a b heq)

theorem genLoop_finds (fs : List AbsPath) (root : AbsPath) (original : PyStr) :
    ∀ (fuel counter : Nat),
      (∃ n, counter ≤ n ∧ n < counter + fuel ∧ genCandidate root original n ∉ fs) →
      counter ≤ genLoop fs root original fuel counter ∧
      genCandidate root original (genLoop fs root original fuel counter) ∉ fs ∧
      ∀ m, counter ≤ m → m < genLoop fs root original fuel counter →
        genCandidate root original m ∈ fs := by
  intro fuel
  induction fuel with
  | zero =>
    intro counter hex
    obtain ⟨n, h1, h2, _⟩ := hex
    omega
  | succ f ih =>
    intro counter hex
    by_cases hc : genCandidate root original counter ∈ fs
    · have hex' : ∃ n, counter + 1 ≤ n ∧ n < counter + 1 + f ∧
          genCandidate root original n ∉ fs := by
        obtain ⟨n, h1, h2, h3⟩ := hex
        have hne : n ≠ counter := by
          intro heqn
          exact h3 (heqn ▸ hc)
        exact ⟨n, by omega, by omega, h3⟩
      obtain ⟨hr1, hr2, hr3⟩ := ih (counter + 1) hex'
      rw [genLoop, if_pos hc]
      refine ⟨by omega, hr2, ?_⟩
      intro m hm1 hm2
      by_cases hmc : m = counter
      · exact hmc ▸ hc
      · exact hr3 m (by omega) hm2
    · rw [genLoop, if_neg hc]
      exact ⟨Nat.le_refl _, hc, fun m h1 h2 => absurd h2 (by omega)⟩

theorem genCounter_spec (fs : List AbsPath) (root : AbsPath) (original : PyStr) :
    1 ≤ genCounter fs root original ∧
    genCandidate root original (genCounter fs root original) ∉ fs ∧
    ∀ m, 1 ≤ m → m < genCounter fs root original →
      genCandidate root original m ∈ fs := by
  obtain ⟨n, h1, h2, h3⟩ := gen_exists fs root original
  exact genLoop_finds fs root original (fs.length + 1) 1 ⟨n, h1, by omega, h3⟩

theorem genCounter_mono (fs : List AbsPath) (root : AbsPath) (original : PyStr) :
    genCounter fs root original <
      genCounter (genCandidate root original (genCounter fs root original) :: fs)
        root original := by
  obtain ⟨hN1, hN2, hN3⟩ := genCounter_spec fs root original
  obtain ⟨hM1, hM2, hM3⟩ :=
    genCounter_spec (genCandidate root original (genCounter fs root original) :: fs)
      root original
  by_contra hcon
  push_neg at hcon
  rcases Nat.lt_or_ge (genCounter (genCandidate root original (genCounter fs root original) :: fs) root original)
      (genCounter fs root original) with hlt | hge
  · have := hN3 _ hM1 hlt
    exact hM2 (List.mem_cons_of_mem _ this)
  · have heq : genCounter (genCandidate root original (genCounter fs root original) :: fs) root original =
        genCounter fs root original := by omega
    rw [heq] at hM2
    exact hM2 (List.mem_cons_self _ _)

theorem splitAux_no47 : ∀ (name : PyStr) (cur : Seg), 47 ∉ cur →
    ∀ s ∈ splitAux name cur, 47 ∉ s := by
  intro name
  induction name with
  | nil =>
    intro cur hcur s hs
    simp only [splitAux, List.mem_singleton] at hs
    subst hs
    simpa using hcur
  | cons c cs ih =>
    intro cur hcur s hs
    by_cases h47 : c = 47
    · rw [splitAux, if_pos h47] at hs
      rcases List.mem_cons.mp hs with rfl | h
      · simpa using hcur
      · exact ih [] (by simp) s h
    · rw [splitAux, if_neg h47] at hs
      refine ih (c :: cur) ?_ s hs
      intro hmem
      rcases List.mem_cons.mp hmem with heq | h
      · exact h47 heq.symm
      · exact hcur h

theorem pathSegs_no47 (name : PyStr) : ∀ s ∈ pathSegs name, 47 ∉ s := by
  intro s hs
  exact splitAux_no47 name [] (by simp) s (List.mem_of_mem_filter hs)

theorem pathSegs_props (name : PyStr) : ∀ s ∈ pathSegs name, s ≠ [] ∧ s ≠ [46] := by
  intro s hs
  have := List.of_mem_filter hs
  simp only [Bool.and_eq_true, decide_eq_true_eq] at this
  exact this

theorem splitAux_append_no47 : ∀ (s : PyStr) (cur : Seg) (t : PyStr), 47 ∉ s →
    splitAux (s ++ t) cur = splitAux t (s.reverse ++ cur) := by
  intro s
  induction s with
  | nil => intro cur t _; simp
  | cons c cs ih =>
    intro cur t hn
    have hc : c ≠ 47 := by
      intro h
      exact hn (h ▸ List.mem_cons_self _ _)
    rw [List.cons_append, splitAux, if_neg hc, ih (c :: cur) t
      (fun h => hn (List.mem_cons_of_mem _ h))]
    simp

theorem rawSegs_single (s : Seg) (h : 47 ∉ s) : rawSegs s = [s] := by
  have := splitAux_append_no47 s [] [] h
  simp only [List.append_nil] at this
  rw [rawSegs, this]
  simp [splitAux]

theorem rawSegs_joinSlash : ∀ (L : List Seg), L ≠ [] → (∀ s ∈ L, 47 ∉ s) →
    rawSegs (joinSlash L) = L := by
  intro L
  induction L with
  | nil => intro h; exact absurd rfl h
  | cons s rest ih =>
    intro _ h47
    rcases rest with _ | ⟨r, rest'⟩
    · exact rawSegs_single s (h47 s (List.mem_cons_self _ _))
    · have hs47 : 47 ∉ s := h47 s (List.mem_cons_self _ _)
      have hrest : rawSegs (joinSlash (r :: rest')) = r :: rest' :=
        ih (by simp) (fun x hx => h47 x (List.mem_cons_of_mem _ hx))
      show rawSegs (s ++ 47 :: joinSlash (r :: rest')) = s :: r :: rest'
      rw [rawSegs, splitAux_append_no47 s [] _ hs47, List.append_nil, splitAux,
        if_pos rfl, List.reverse_reverse]
      rw [rawSegs] at hrest
      rw [hrest]

theorem pathSegs_joinSlash (L : List Seg) (hne : L ≠ []) (h47 : ∀ s ∈ L, 47 ∉ s)
    (hprops : ∀ s ∈ L, s ≠ [] ∧ s ≠ [46]) : pathSegs (joinSlash L) = L := by
  rw [pathSegs, rawSegs_joinSlash L hne h47]
  rw [List.filter_eq_self]
  intro s hs
  simp only [Bool.and_eq_true, decide_eq_true_eq]
  exact hprops s hs

theorem pathSegs_slash_cons (rest : PyStr) : pathSegs (47 :: rest) = pathSegs rest := by
  rw [pathSegs, pathSegs, rawSegs, splitAux, if_pos rfl]
  show List.filter _ ([].reverse :: splitAux rest []) = _
  rw [List.reverse_nil, List.filter]
  rfl

theorem joinSlash_not_abs (L : List Seg) (hne : L ≠ [])
    (hprops : ∀ s ∈ L, s ≠ [] ∧ 47 ∉ s) : isAbsName (joinSlash L) = false := by
  rcases L with _ | ⟨s, rest⟩
  · exact absurd rfl hne
  · obtain ⟨hsne, hs47⟩ := hprops s (List.mem_cons_self _ _)
    rcases s with _ | ⟨c, s'⟩
    · exact absurd rfl hsne
    · have hc : c ≠ 47 := fun h => hs47 (h ▸ List.mem_cons_self _ _)
      rcases rest with _ | ⟨r, rest'⟩
      · show isAbsName (c :: s') = false
        simp [isAbsName, hc]
      · show isAbsName ((c :: s') ++ 47 :: joinSlash (r :: rest')) = false
        simp [isAbsName, hc]

theorem getLast?_mem' : ∀ (l : List Seg) (a : Seg), l.getLast? = some a → a ∈ l := by
  intro l
  induction l with
  | nil => intro a h; simp at h
  | cons x xs ih =>
    intro a h
    rcases xs with _ | ⟨y, ys⟩
    · simp only [List.getLast?_singleton, Option.some.injEq] at h
      exact h ▸ List.mem_cons_self _ _
    · rw [List.getLast?_cons_cons] at h
      exact List.mem_cons_of_mem _ (ih a h)

theorem nameOf_no47 (original : PyStr) : 47 ∉ nameOf original := by
  rw [nameOf]
  cases h : (pathSegs original).getLast? with
  | none => simp
  | some l =>
    simp only [Option.getD_some]
    exact pathSegs_no47 original l (getLast?_mem' _ l h)

theorem pyStem_sub (seg : Seg) : ∀ c ∈ pyStem seg, c ∈ seg := by
  intro c hc
  rw [pyStem] at hc
  rcases h : rfindDot seg with _ | i
  · rw [h] at hc; exact hc
  · rw [h] at hc
    simp only [] at hc
    split_ifs at hc
    · exact List.mem_of_mem_take hc
    · exact hc

theorem pySuffix_sub (seg : Seg) : ∀ c ∈ pySuffix seg, c ∈ seg := by
  intro c hc
  rw [pySuffix] at hc
  rcases h : rfindDot seg with _ | i
  · rw [h] at hc; simp at hc
  · rw [h] at hc
    simp only [] at hc
    split_ifs at hc
    · exact List.mem_of_mem_drop hc
    · simp at hc

theorem counterName_no47 (original : PyStr) (n : Nat) :
    47 ∉ counterName (pyStem (nameOf original)) (pySuffix (nameOf original)) n := by
  intro h
  rw [counterName] at h
  rcases List.mem_append.mp h with h1 | h2
  · exact nameOf_no47 original (pyStem_sub _ 47 h1)
  · rcases List.mem_cons.mp h2 with h45 | h3
    · simp at h45
    · rcases List.mem_append.mp h3 with h4 | h5
      · have := decReprAux_digits (n + 1) n 47 h4
        omega
      · exact nameOf_no47 original (pySuffix_sub _ 47 h5)

theorem counterName_ne_nil (stem sfx : Seg) (n : Nat) : counterName stem sfx n ≠ [] :=
  List.ne_nil_of_mem (mem45_counterName stem sfx n)

theorem counterName_ne_dot (stem sfx : Seg) (n : Nat) : counterName stem sfx n ≠ [46] := by
  intro h
  have := mem45_counterName stem sfx n
  rw [h] at this
  simp at this

theorem genSeg_list_props (fs : List AbsPath) (root : AbsPath) (original : PyStr) :
    let seg := counterName (pyStem (nameOf original)) (pySuffix (nameOf original))
      (genCounter fs root original)
    let L := parentSegs original ++ [seg]
    L ≠ [] ∧ (∀ s ∈ L, 47 ∉ s) ∧ (∀ s ∈ L, s ≠ [] ∧ s ≠ [46]) := by
  intro seg L
  refine ⟨by simp [L], ?_, ?_⟩
  · intro s hs
    rcases List.mem_append.mp hs with h1 | h2
    · exact pathSegs_no47 original s (List.dropLast_subset _ h1)
    · rw [List.mem_singleton.mp h2]
      exact counterName_no47 original _
  · intro s hs
    rcases List.mem_append.mp hs with h1 | h2
    · exact pathSegs_props original s (List.dropLast_subset _ h1)
    · rw [List.mem_singleton.mp h2]
      exact ⟨counterName_ne_nil _ _ _, counterName_ne_dot _ _ _⟩

theorem pathSegs_generate (fs : List AbsPath) (root : AbsPath) (original : PyStr) :
    pathSegs (generate_unique_name fs root original) =
      parentSegs original ++
        [counterName (pyStem (nameOf original)) (pySuffix (nameOf original))
          (genCounter fs root original)] := by
  obtain ⟨hne, h47, hprops⟩ := genSeg_list_props fs root original
  rw [generate_unique_name]
  by_cases habs : isAbsName original = true
  · rw [habs]
    show pathSegs (47 :: joinSlash _) = _
    rw [pathSegs_slash_cons, pathSegs_joinSlash _ hne h47 hprops]
  · rw [Bool.not_eq_true] at habs
    rw [habs]
    show pathSegs ([] ++ joinSlash _) = _
    rw [List.nil_append, pathSegs_joinSlash _ hne h47 hprops]

theorem diskPath_generate (fs : List AbsPath) (root : AbsPath) (original : PyStr) :
    diskPath root (generate_unique_name fs root original) =
      genCandidate root original (genCounter fs root original) := by
  obtain ⟨hne, h47, hprops⟩ := genSeg_list_props fs root original
  rw [diskPath, joinSegs, genCandidate, genParentAbs]
  by_cases habs : isAbsName original = true
  · have habs2 : isAbsName (generate_unique_name fs root original) = true := by
      rw [generate_unique_name, habs]
      rfl
    rw [habs2, if_pos rfl, habs, if_pos rfl, pathSegs_generate]
  · rw [Bool.not_eq_true] at habs
    have habs2 : isAbsName (generate_unique_name fs root original) = false := by
      rw [generate_unique_name, habs]
      show isAbsName ([] ++ joinSlash _) = false
      rw [List.nil_append]
      refine joinSlash_not_abs _ hne ?_
      intro s hs
      exact ⟨(hprops s hs).1, h47 s hs⟩
    rw [habs2, habs]
    simp only [Bool.false_eq_true, if_false]
    rw [pathSegs_generate, ← List.append_assoc]

/-- C6: generate_unique_name returns a relative path whose on-disk location
under the base is not currently present, preserving the original's parent
subdirectory, with final component stem-N.suffix for the smallest counter
N from 1 up whose candidate is unused; materializing the returned path and
calling again yields a strictly larger counter, and the counter minimality
holds for every finite filesystem, so the sequence of counters over
repeated materialized calls is strictly increasing without upper bound. -/
theorem generate_unique_name_spec (fs : List AbsPath) (root : AbsPath) (original : PyStr) :
    1 ≤ genCounter fs root original ∧
    diskPath root (generate_unique_name fs root original) ∉ fs ∧
    parentSegs (generate_unique_name fs root original) = parentSegs original ∧
    nameOf (generate_unique_name fs root original) =
      counterName (pyStem (nameOf original)) (pySuffix (nameOf original))
        (genCounter fs root original) ∧
    (∀ m, 1 ≤ m → m < genCounter fs root original → genCandidate root original m ∈ fs) ∧
    genCounter fs root original <
      genCounter (diskPath root (generate_unique_name fs root original) :: fs)
        root original := by
  obtain ⟨h1, h2, h3⟩ := genCounter_spec fs root original
  refine ⟨h1, ?_, ?_, ?_, h3, ?_⟩
  · rw [diskPath_generate]
    exact h2
  · rw [parentSegs, pathSegs_generate, List.dropLast_concat]
  · rw [nameOf, pathSegs_generate, List.getLast?_concat]
    rfl
  · rw [diskPath_generate]
    exact genCounter_mono fs root original

/-- Witness for C6: with data/x-1.txt already on disk, the original
data/x.txt is renamed to data/x-2.txt, fresh on disk, after probing
counter 1. -/
theorem generate_unique_name_spec_witness :
    generate_unique_name [[strLit "out", strLit "data", strLit "x-1.txt"]] [strLit "out"]
      (strLit "data/x.txt") = strLit "data/x-2.txt" ∧
    diskPath [strLit "out"]
        (generate_unique_name [[strLit "out", strLit "data", strLit "x-1.txt"]]
          [strLit "out"] (strLit "data/x.txt")) ∉
      [[strLit "out", strLit "data", strLit "x-1.txt"]] ∧
    (∀ m, 1 ≤ m →
      m < genCounter [[strLit "out", strLit "data", strLit "x-1.txt"]] [strLit "out"]
        (strLit "data/x.txt") →
      genCandidate [strLit "out"] (strLit "data/x.txt") m ∈
        [[strLit "out", strLit "data", strLit "x-1.txt"]]) := by
  refine ⟨by decide, ?_, ?_⟩
  · exact (generate_unique_name_spec [[strLit "out", strLit "data", strLit "x-1.txt"]]
      [strLit "out"] (strLit "data/x.txt")).2.1
  · exact (generate_unique_name_spec [[strLit "out", strLit "data", strLit "x-1.txt"]]
      [strLit "out"] (strLit "data/x.txt")).2.2.2.2.1


/-! ## Theorems about collision.py: check_collision (C4) -/


theorem compute_hash_ne_size (hashFn : List Nat → List Nat) (m : CollisionMethod)
    (c : List Nat) (h : m ≠ .SIZE) : compute_hash hashFn m c = hashFn c := by
  cases m
  · exact absurd rfl h
  · rfl
  · rfl

theorem check_collision_unseen (hashFn : List Nat → List Nat) (t : CollisionTracker)
    (rel : PyStr) (content : List Nat) (h : dictGet rel t.files = none) :
    check_collision hashFn t rel content =
      ((false, false),
        { t with files := dictSet rel (content.length,
            if t.method = .SIZE then none else some (hashFn content)) t.files }) := by
  unfold check_collision
  rw [h]
  by_cases hm : t.method = .SIZE
  · simp [hm]
  · simp [hm, compute_hash_ne_size hashFn t.method content hm]

theorem check_collision_seen (hashFn : List Nat → List Nat) (t : CollisionTracker)
    (rel : PyStr) (content : List Nat) (sz : Nat) (fp : Option (List Nat))
    (h : dictGet rel t.files = some (sz, fp)) :
    (check_collision hashFn t rel content).2 = t := by
  unfold check_collision
  rw [h]
  simp only []
  split_ifs <;> rfl

/-- C4: check_collision on an unseen path reports no collision and records
the candidate's size with its fingerprint (no fingerprint under SIZE); on
a seen path the tracker is unchanged and: a differing size yields a
conflicting collision for every digest function (no hash computed); an
equal size under SIZE yields an identical collision; an equal size under
a hashing method yields identical exactly when the candidate's digest
equals the stored fingerprint. -/
theorem check_collision_classification (hashFn : List Nat → List Nat)
    (t : CollisionTracker) (rel : PyStr) (content : List Nat) :
    (dictGet rel t.files = none →
      check_collision hashFn t rel content =
        ((false, false),
          { t with files := dictSet rel (content.length,
              if t.method = .SIZE then none else some (hashFn content)) t.files })) ∧
    (∀ sz fp, dictGet rel t.files = some (sz, fp) →
      (check_collision hashFn t rel content).2 = t ∧
      (content.length ≠ sz →
        ∀ hashFn2, check_collision hashFn2 t rel content = ((true, false), t)) ∧
      (content.length = sz → t.method = CollisionMethod.SIZE →
        (check_collision hashFn t rel content).1 = (true, true)) ∧
      (content.length = sz → t.method ≠ CollisionMethod.SIZE →
        (check_collision hashFn t rel content).1 =
          (true, decide (some (hashFn content) = fp)))) := by
  refine ⟨check_collision_unseen hashFn t rel content, ?_⟩
  intro sz fp h
  refine ⟨check_collision_seen hashFn t rel content sz fp h, ?_, ?_, ?_⟩
  · intro hne hashFn2
    unfold check_collision
    rw [h]
    simp only []
    rw [if_pos hne]
  · intro heq hm
    unfold check_collision
    rw [h]
    simp only []
    rw [if_neg (by omega), if_pos hm]
  · intro heq hm
    unfold check_collision
    rw [h]
    simp only []
    rw [if_neg (by omega), if_neg hm, compute_hash_ne_size hashFn t.method content hm]

/-- Witness for C4: the four classification outcomes at concrete trackers
and contents, including hash-independence of the size short-circuit. -/
theorem check_collision_classification_witness :
    check_collision (fun c => c) fastTracker0 (strLit "x") [65] =
      ((false, false), { fastTracker0 with files := [(strLit "x", (1, some [65]))] }) ∧
    check_collision (fun _ => [9]) { method := .HASH_FAST, files := [(strLit "x", (2, some [66, 66]))] } (strLit "x") [67] =
      ((true, false), { method := .HASH_FAST, files := [(strLit "x", (2, some [66, 66]))] }) ∧
    (check_collision (fun c => c) { method := .SIZE, files := [(strLit "x", (1, none))] } (strLit "x") [67]).1 =
      (true, true) ∧
    (check_collision (fun c => c) { method := .HASH_FAST, files := [(strLit "x", (1, some [65]))] } (strLit "x") [65]).1 =
      (true, true) ∧
    (check_collision (fun c => c) { method := .HASH_FAST, files := [(strLit "x", (1, some [65]))] } (strLit "x") [67]).1 =
      (true, false) := by
  refine ⟨?_, ?_, ?_, ?_, ?_⟩
  · have h := (check_collision_classification (fun c => c) fastTracker0 (strLit "x") [65]).1 (by decide)
    rw [h]
    decide
  · have h := ((check_collision_classification (fun c => c) { method := .HASH_FAST, files := [(strLit "x", (2, some [66, 66]))] } (strLit "x") [67]).2 2 (some [66, 66]) (by decide)).2.1 (by decide) (fun _ => [9])
    rw [h]
  · have h := ((check_collision_classification (fun c => c) { method := .SIZE, files := [(strLit "x", (1, none))] } (strLit "x") [67]).2 1 none (by decide)).2.2.1 (by decide) (by decide)
    rw [h]
  · have h := ((check_collision_classification (fun c => c) { method := .HASH_FAST, files := [(strLit "x", (1, some [65]))] } (strLit "x") [65]).2 1 (some [65]) (by decide)).2.2.2 (by decide) (by decide)
    rw [h]
    decide
  · have h := ((check_collision_classification (fun c => c) { method := .HASH_FAST, files := [(strLit "x", (1, some [65]))] } (strLit "x") [67]).2 1 (some [65]) (by decide)).2.2.2 (by decide) (by decide)
    rw [h]
    decide

/-! ## Theorems about utils.py and the archive boundary (C5, C2) -/


/-- C5: check_disk_space returns whether available is at least required
plus the safety margin, together with the available bytes; and when it
reports insufficient space for the archive's summed uncompressed size,
extract_archive returns immediately with success false, exactly one
insufficient-space error, all three counters zero, no file written and
the tracker untouched. -/
theorem insufficient_space_aborts (env : Env) (margin free sz : Nat)
    (entries : List (Entry × EntryIO)) (disk0 : List AbsPath) (tr0 : CollisionTracker) :
    check_disk_space free ((entries.map (fun p => p.1.file_size)).sum) margin =
      (decide ((entries.map (fun p => p.1.file_size)).sum + margin ≤ free), free) ∧
    ((check_disk_space free ((entries.map (fun p => p.1.file_size)).sum) margin).1 = false →
      extract_archive env margin free (some sz) (.opened entries) disk0 tr0 =
        PyResult.ok { success := false, files_extracted := 0, files_skipped := 0, files_renamed := 0, size_compressed := sz, size_uncompressed := (entries.map (fun p => p.1.file_size)).sum, errors := [EMsg.insufficientSpace ((entries.map (fun p => p.1.file_size)).sum + margin) free], collisions := [], disk := disk0, tracker := tr0 }) := by
  refine ⟨rfl, ?_⟩
  intro h
  unfold extract_archive
  simp only [h, Bool.false_eq_true, if_false]
  rfl

/-- Witness for C5: the specification scenario of 500 MiB required, 550
MiB free and a 100 MiB margin aborts the archive with zero files. -/
theorem insufficient_space_aborts_witness :
    (check_disk_space (550 * 1024 * 1024) (500 * 1024 * 1024) (100 * 1024 * 1024)).1 = false ∧
    extract_archive outEnv (100 * 1024 * 1024) (550 * 1024 * 1024) (some 7)
      (.opened [entryBig]) [] fastTracker0 =
      PyResult.ok { success := false, files_extracted := 0, files_skipped := 0, files_renamed := 0, size_compressed := 7, size_uncompressed := 500 * 1024 * 1024, errors := [EMsg.insufficientSpace (600 * 1024 * 1024) (550 * 1024 * 1024)], collisions := [], disk := [], tracker := fastTracker0 } := by
  constructor
  · decide
  · have h := (insufficient_space_aborts outEnv (100 * 1024 * 1024) (550 * 1024 * 1024) 7
      [entryBig] [] fastTracker0).2 (by decide)
    rw [h]
    decide

/-- C2 (code bug): the stat call on the archive path sits before the try
block of extract_archive, so a missing archive file raises to the caller
instead of returning a result; every failure after stat stays inside: any
open outcome returns a result, a corrupt archive returns success false
with one corruption error, and a per-entry exception becomes an error
message with success false while the loop continues with the remaining
entries. -/
theorem extract_archive_exception_boundary (env : Env) (margin free : Nat)
    (zf : OpenOutcome) (disk0 : List AbsPath) (tr0 : CollisionTracker) :
    extract_archive env margin free none zf disk0 tr0 = PyResult.exc ∧
    (∀ sz, ∃ r, extract_archive env margin free (some sz) zf disk0 tr0 = PyResult.ok r) ∧
    (∀ sz m, extract_archive env margin free (some sz) (.badZip m) disk0 tr0 =
      PyResult.ok { initState disk0 tr0 with size_compressed := sz, success := false, errors := [EMsg.corruptedArchive m] }) ∧
    (∀ e io rest s s2 m, e.is_dir = false →
      extract_file env e io s = (s2, some m) →
      processEntries env ((e, io) :: rest) s =
        processEntries env rest { s2 with errors := s2.errors ++ [m], success := false }) := by
  refine ⟨rfl, ?_, ?_, ?_⟩
  · intro sz
    cases zf with
    | badZip m => exact ⟨_, rfl⟩
    | raiseOther m => exact ⟨_, rfl⟩
    | opened entries =>
      unfold extract_archive
      by_cases h : (check_disk_space free ((entries.map (fun p => p.1.file_size)).sum) margin).1 = true
      · simp only [h, if_true]
        exact ⟨_, rfl⟩
      · rw [Bool.not_eq_true] at h
        simp only [h, Bool.false_eq_true, if_false]
        exact ⟨_, rfl⟩
  · intro sz m
    rfl
  · intro e io rest s s2 m hd hef
    simp only [processEntries, hd, Bool.false_eq_true, if_false, hef]

/-- Witness for C2: a missing archive file escapes as an exception, and a
failing staged write becomes one error with success false. -/
theorem extract_archive_exception_boundary_witness :
    extract_archive outEnv 0 1000 none (.opened []) [] fastTracker0 = PyResult.exc ∧
    processEntries outEnv [entryWriteFail] (initState [] fastTracker0) =
      { initState [] fastTracker0 with errors := [EMsg.extractError (strLit "y.txt")], success := false } := by
  constructor
  · exact (extract_archive_exception_boundary outEnv 0 1000 (.opened []) [] fastTracker0).1
  · have h := (extract_archive_exception_boundary outEnv 0 1000 (.opened []) [] fastTracker0).2.2.2
      entryWriteFail.1 entryWriteFail.2 [] (initState [] fastTracker0) (initState [] fastTracker0)
      (EMsg.extractError (strLit "y.txt")) (by decide) (by decide)
    exact h.trans (by decide)

/-! ## Theorems about the per-entry safety check (C1) -/


theorem extract_file_rejected (env : Env) (e : Entry) (io : EntryIO) (s : ExtState)
    (hu : is_safe_path env.root (joinSegs env.root (fix_zip_filename e.filename)) = false) :
    extract_file env e io s =
      ({ s with errors := s.errors ++ [EMsg.unsafePath (fix_zip_filename e.filename)] }, none) := by
  unfold extract_file
  simp only [hu, Bool.not_false, if_true]

theorem extract_file_errors_mono (env : Env) (e : Entry) (io : EntryIO) (s : ExtState) :
    ∃ t, (extract_file env e io s).1.errors = s.errors ++ t := by
  simp only [extract_file]
  split_ifs
  · exact ⟨[EMsg.unsafePath (fix_zip_filename e.filename)], rfl⟩
  · exact ⟨[], by simp⟩
  · exact ⟨[], by simp⟩
  · exact ⟨[], by simp⟩
  · exact ⟨[], by simp⟩
  · exact ⟨[], by simp⟩
  · exact ⟨[], by simp⟩

theorem processEntries_errors_mono (env : Env) :
    ∀ (l : List (Entry × EntryIO)) (s : ExtState),
      ∃ t, (processEntries env l s).errors = s.errors ++ t := by
  intro l
  induction l with
  | nil => intro s; exact ⟨[], by simp [processEntries]⟩
  | cons p rest ih =>
    intro s
    obtain ⟨e, io⟩ := p
    by_cases hd : e.is_dir = true
    · simp only [processEntries, hd, if_true]
      exact ih s
    · rw [Bool.not_eq_true] at hd
      obtain ⟨t1, ht1⟩ := extract_file_errors_mono env e io s
      cases hef : extract_file env e io s with
    | mk s2 exc =>
      rw [hef] at ht1
      cases exc with
      | none =>
        obtain ⟨t2, ht2⟩ := ih s2
        refine ⟨t1 ++ t2, ?_⟩
        simp only [] at ht1
        simp only [processEntries, hd, Bool.false_eq_true, if_false, hef, ht2, ht1,
          List.append_assoc]
      | some m =>
        obtain ⟨t2, ht2⟩ := ih { s2 with errors := s2.errors ++ [m], success := false }
        refine ⟨(t1 ++ [m]) ++ t2, ?_⟩
        simp only [] at ht1
        simp only [processEntries, hd, Bool.false_eq_true, if_false, hef]
        rw [ht2, ht1]
        simp [List.append_assoc]

/-- C1 counterexample: an archive whose single entry carries the
traversal name ../../etc/passwd ends with one unsafePath error, nothing
written, and success still true — not false as the claim states: the
unsafe-path branch of _extract_file returns without touching success. -/
theorem unsafe_path_success_counterexample :
    extract_archive outEnv 0 1000 (some 5) (.opened [entryTraversal]) [] fastTracker0 =
      PyResult.ok { success := true, files_extracted := 0, files_skipped := 0, files_renamed := 0, size_compressed := 5, size_uncompressed := 10, errors := [EMsg.unsafePath (strLit "../../etc/passwd")], collisions := [], disk := [], tracker := fastTracker0 } := by
  decide

/-- C1 (amended): a non-directory entry whose repaired name fails the
PathGuard check contributes exactly one unsafePath error message, writes
no file (output tree, tracker, counters and collision list unchanged),
the loop continues with the remaining entries, and the final result's
errors contain that message; the success flag is not changed by this
branch — the archive is flagged only through the non-empty errors list
(the batch caller routes on success combined with emptiness of errors),
not by success = false as the claim states. -/
theorem unsafe_entry_behavior (env : Env) (pre rest : List (Entry × EntryIO))
    (e : Entry) (io : EntryIO) (s : ExtState)
    (hd : e.is_dir = false)
    (hu : is_safe_path env.root (joinSegs env.root (fix_zip_filename e.filename)) = false) :
    extract_file env e io s =
      ({ s with errors := s.errors ++ [EMsg.unsafePath (fix_zip_filename e.filename)] }, none) ∧
    processEntries env ((e, io) :: rest) s =
      processEntries env rest
        { s with errors := s.errors ++ [EMsg.unsafePath (fix_zip_filename e.filename)] } ∧
    EMsg.unsafePath (fix_zip_filename e.filename) ∈
      (processEntries env (pre ++ (e, io) :: rest) s).errors := by
  have hstep : ∀ s1 : ExtState, processEntries env ((e, io) :: rest) s1 =
      processEntries env rest
        { s1 with errors := s1.errors ++ [EMsg.unsafePath (fix_zip_filename e.filename)] } := by
    intro s1
    simp only [processEntries, hd, Bool.false_eq_true, if_false,
      extract_file_rejected env e io s1 hu]
  have hmem : ∀ (pre2 : List (Entry × EntryIO)) (s1 : ExtState),
      EMsg.unsafePath (fix_zip_filename e.filename) ∈
        (processEntries env (pre2 ++ (e, io) :: rest) s1).errors := by
    intro pre2
    induction pre2 with
    | nil =>
      intro s1
      rw [List.nil_append, hstep s1]
      obtain ⟨t, ht⟩ := processEntries_errors_mono env rest
        { s1 with errors := s1.errors ++ [EMsg.unsafePath (fix_zip_filename e.filename)] }
      rw [ht]
      simp
    | cons p pre' ih =>
      intro s1
      obtain ⟨e2, io2⟩ := p
      rw [List.cons_append]
      by_cases hd2 : e2.is_dir = true
      · simp only [processEntries, hd2, if_true]
        exact ih s1
      · rw [Bool.not_eq_true] at hd2
        cases hef : extract_file env e2 io2 s1 with
        | mk s2 exc =>
          cases exc with
          | none =>
            simp only [processEntries, hd2, Bool.false_eq_true, if_false, hef]
            exact ih s2
          | some m2 =>
            simp only [processEntries, hd2, Bool.false_eq_true, if_false, hef]
            exact ih _
  exact ⟨extract_file_rejected env e io s hu, hstep s, hmem pre s⟩

/-- Witness for C1 at the traversal entry of the scenario. -/
theorem unsafe_entry_behavior_witness :
    entryTraversal.1.is_dir = false ∧
    is_safe_path outEnv.root
      (joinSegs outEnv.root (fix_zip_filename entryTraversal.1.filename)) = false ∧
    EMsg.unsafePath (fix_zip_filename entryTraversal.1.filename) ∈
      (processEntries outEnv ([] ++ (entryTraversal.1, entryTraversal.2) :: [])
        (initState [] fastTracker0)).errors := by
  refine ⟨by decide, by decide, ?_⟩
  exact (unsafe_entry_behavior outEnv [] [] entryTraversal.1 entryTraversal.2
    (initState [] fastTracker0) (by decide) (by decide)).2.2

/-! ## Theorems about the extraction accounting (C8) -/


theorem extract_file_count (env : Env) (e : Entry) (io : EntryIO) (s : ExtState) :
    ((extract_file env e io s).2 = none ∧
      countOf (extract_file env e io s).1 = countOf s + 1) ∨
    (∃ m, (extract_file env e io s).2 = some m ∧
      countOf (extract_file env e io s).1 = countOf s) := by
  simp only [extract_file]
  split_ifs
  · exact Or.inl ⟨rfl, by simp [countOf]; omega⟩
  · exact Or.inr ⟨_, rfl, rfl⟩
  · exact Or.inl ⟨rfl, by simp [countOf]; omega⟩
  · exact Or.inr ⟨_, rfl, rfl⟩
  · exact Or.inl ⟨rfl, by simp [countOf]; omega⟩
  · exact Or.inr ⟨_, rfl, rfl⟩
  · exact Or.inl ⟨rfl, by simp [countOf]; omega⟩

theorem processEntries_count (env : Env) :
    ∀ (l : List (Entry × EntryIO)) (s : ExtState),
      countOf (processEntries env l s) =
        countOf s + (l.filter (fun p => !p.1.is_dir)).length := by
  intro l
  induction l with
  | nil => intro s; simp [processEntries]
  | cons p rest ih =>
    intro s
    obtain ⟨e, io⟩ := p
    by_cases hd : e.is_dir = true
    · simp only [processEntries, hd, if_true]
      rw [ih s]
      simp [List.filter_cons, hd]
    · rw [Bool.not_eq_true] at hd
      cases hef : extract_file env e io s with
      | mk s2 exc =>
        have hcnt := extract_file_count env e io s
        rw [hef] at hcnt
        cases exc with
        | none =>
          have hc : countOf s2 = countOf s + 1 := by
            rcases hcnt with ⟨_, h⟩ | ⟨m, hm, _⟩
            · simpa using h
            · simp at hm
          simp only [processEntries, hd, Bool.false_eq_true, if_false, hef]
          rw [ih s2, hc]
          simp [List.filter_cons, hd]
          omega
        | some m =>
          have hc : countOf s2 = countOf s := by
            rcases hcnt with ⟨h0, _⟩ | ⟨m2, hm2, h⟩
            · simp at h0
            · simpa using h
          simp only [processEntries, hd, Bool.false_eq_true, if_false, hef]
          rw [ih _]
          have hstep : countOf { s2 with errors := s2.errors ++ [m], success := false } =
              countOf s2 + 1 := by
            simp [countOf]
            omega
          rw [hstep, hc]
          simp [List.filter_cons, hd]
          omega

theorem extract_file_ok_step (env : Env) (e : Entry) (io : EntryIO) (s1 : ExtState)
    (hsafe : is_safe_path env.root (joinSegs env.root (fix_zip_filename e.filename)) = true)
    (hw : io.writeOk = true) (hr : io.renameOk = true) :
    (extract_file env e io s1).2 = none ∧
    (extract_file env e io s1).1.errors = s1.errors ∧
    (extract_file env e io s1).1.files_extracted + (extract_file env e io s1).1.files_skipped +
        (extract_file env e io s1).1.files_renamed =
      s1.files_extracted + s1.files_skipped + s1.files_renamed + 1 := by
  simp only [extract_file, hsafe, hw, hr, Bool.not_true, Bool.false_eq_true, if_false]
  split_ifs
  · exact ⟨rfl, rfl, by simp; omega⟩
  · exact ⟨rfl, rfl, by simp; omega⟩
  · exact ⟨rfl, rfl, by simp; omega⟩

theorem extract_file_writefail (env : Env) (e : Entry) (io : EntryIO) (s1 : ExtState)
    (hsafe : is_safe_path env.root (joinSegs env.root (fix_zip_filename e.filename)) = true)
    (hw : io.writeOk = false) :
    (extract_file env e io s1).2 = some (EMsg.extractError e.filename) ∧
    (extract_file env e io s1).1.files_extracted = s1.files_extracted ∧
    (extract_file env e io s1).1.files_skipped = s1.files_skipped ∧
    (extract_file env e io s1).1.files_renamed = s1.files_renamed ∧
    (extract_file env e io s1).1.errors = s1.errors := by
  simp [extract_file, hsafe, hw]

/-- C8: over any run of the per-entry loop, the three counters plus the
error count grow by exactly the number of non-directory entries — each
processed non-directory entry increments exactly one of the four; a safe
entry with succeeding I/O increments exactly one of the three file
counters and adds no error, an entry failing the safety check adds
exactly one error and no counter, and an entry whose staged write fails
raises, adding one error and no counter; hence the counter sum equals
the number of non-directory entries that neither failed the safety check
nor raised an I/O error. -/
theorem extraction_accounting (env : Env) (entries : List (Entry × EntryIO)) (s : ExtState) :
    ((processEntries env entries s).files_extracted +
        (processEntries env entries s).files_skipped +
        (processEntries env entries s).files_renamed +
        (processEntries env entries s).errors.length =
      s.files_extracted + s.files_skipped + s.files_renamed + s.errors.length +
        (entries.filter (fun p => !p.1.is_dir)).length) ∧
    (∀ e io s1,
      is_safe_path env.root (joinSegs env.root (fix_zip_filename e.filename)) = true →
      io.writeOk = true → io.renameOk = true →
      (extract_file env e io s1).2 = none ∧
      (extract_file env e io s1).1.errors = s1.errors ∧
      (extract_file env e io s1).1.files_extracted + (extract_file env e io s1).1.files_skipped +
          (extract_file env e io s1).1.files_renamed =
        s1.files_extracted + s1.files_skipped + s1.files_renamed + 1) ∧
    (∀ e io s1,
      is_safe_path env.root (joinSegs env.root (fix_zip_filename e.filename)) = false →
      extract_file env e io s1 =
        ({ s1 with errors := s1.errors ++ [EMsg.unsafePath (fix_zip_filename e.filename)] },
         none)) ∧
    (∀ e io s1,
      is_safe_path env.root (joinSegs env.root (fix_zip_filename e.filename)) = true →
      io.writeOk = false →
      (extract_file env e io s1).2 = some (EMsg.extractError e.filename) ∧
      (extract_file env e io s1).1.files_extracted = s1.files_extracted ∧
      (extract_file env e io s1).1.files_skipped = s1.files_skipped ∧
      (extract_file env e io s1).1.files_renamed = s1.files_renamed ∧
      (extract_file env e io s1).1.errors = s1.errors) := by
  refine ⟨?_, ?_, ?_, ?_⟩
  · have h := processEntries_count env entries s
    simpa [countOf] using h
  · intro e io s1 hsafe hw hr
    exact extract_file_ok_step env e io s1 hsafe hw hr
  · intro e io s1 hu
    exact extract_file_rejected env e io s1 hu
  · intro e io s1 hsafe hw
    exact extract_file_writefail env e io s1 hsafe hw

/-- Witness for C8: a run over a directory entry, a clean entry, a
traversal entry and a write-failure entry counts one extraction and two
errors — three non-directory entries in total. -/
theorem extraction_accounting_witness :
    ((processEntries outEnv [entryDir, entryFirst, entryTraversal, entryWriteFail]
        (initState [] fastTracker0)).files_extracted +
      (processEntries outEnv [entryDir, entryFirst, entryTraversal, entryWriteFail]
        (initState [] fastTracker0)).files_skipped +
      (processEntries outEnv [entryDir, entryFirst, entryTraversal, entryWriteFail]
        (initState [] fastTracker0)).files_renamed +
      (processEntries outEnv [entryDir, entryFirst, entryTraversal, entryWriteFail]
        (initState [] fastTracker0)).errors.length = 3) ∧
    (extract_file outEnv entryFirst.1 entryFirst.2 (initState [] fastTracker0)).2 = none := by
  constructor
  · have h := (extraction_accounting outEnv [entryDir, entryFirst, entryTraversal, entryWriteFail]
      (initState [] fastTracker0)).1
    rw [h]
    decide
  · exact ((extraction_accounting outEnv [] (initState [] fastTracker0)).2.1
      entryFirst.1 entryFirst.2 (initState [] fastTracker0) (by decide) (by decide) (by decide)).1

/-! ## Theorems about the tracker invariant (C9) -/


theorem mem_dictSet (k : PyStr) (v : Nat × Option (List Nat)) :
    ∀ (l : List (PyStr × (Nat × Option (List Nat)))) rec,
      rec ∈ dictSet k v l → rec = (k, v) ∨ rec ∈ l := by
  intro l
  induction l with
  | nil =>
    intro rec h
    simp [dictSet] at h
    exact Or.inl h
  | cons p rest ih =>
    intro rec h
    obtain ⟨k2, v2⟩ := p
    rw [dictSet] at h
    by_cases hk : k = k2
    · rw [if_pos hk] at h
      rcases List.mem_cons.mp h with rfl | h2
      · exact Or.inl rfl
      · exact Or.inr (List.mem_cons_of_mem _ h2)
    · rw [if_neg hk] at h
      rcases List.mem_cons.mp h with rfl | h2
      · exact Or.inr (List.mem_cons_self _ _)
      · rcases ih rec h2 with h3 | h3
        · exact Or.inl h3
        · exact Or.inr (List.mem_cons_of_mem _ h3)

theorem dictSet_pairwise (k : PyStr) (v : Nat × Option (List Nat)) :
    ∀ (l : List (PyStr × (Nat × Option (List Nat)))),
      l.Pairwise (fun a b => a.1 ≠ b.1) →
      (dictSet k v l).Pairwise (fun a b => a.1 ≠ b.1) := by
  intro l
  induction l with
  | nil =>
    intro _
    simp [dictSet]
  | cons p rest ih =>
    intro h
    obtain ⟨k2, v2⟩ := p
    rw [List.pairwise_cons] at h
    obtain ⟨hhead, htail⟩ := h
    rw [dictSet]
    by_cases hk : k = k2
    · rw [if_pos hk]
      rw [List.pairwise_cons]
      refine ⟨?_, htail⟩
      intro b hb
      rw [hk]
      exact hhead b hb
    · rw [if_neg hk]
      rw [List.pairwise_cons]
      refine ⟨?_, ih htail⟩
      intro b hb
      rcases mem_dictSet k v rest b hb with rfl | h2
      · exact fun he => hk he.symm
      · exact hhead b h2

theorem dictGet_dictSet_self (k : PyStr) (v : Nat × Option (List Nat)) :
    ∀ l, dictGet k (dictSet k v l) = some v := by
  intro l
  induction l with
  | nil => simp [dictSet, dictGet]
  | cons p rest ih =>
    obtain ⟨k2, v2⟩ := p
    rw [dictSet]
    by_cases hk : k = k2
    · rw [if_pos hk, dictGet, if_pos rfl]
    · rw [if_neg hk, dictGet, if_neg hk]
      exact ih

theorem dictGet_dictSet_ne (k k2 : PyStr) (v : Nat × Option (List Nat))
    (h : k ≠ k2) : ∀ l, dictGet k (dictSet k2 v l) = dictGet k l := by
  intro l
  induction l with
  | nil => simp [dictSet, dictGet, h]
  | cons p rest ih =>
    obtain ⟨k3, v3⟩ := p
    rw [dictSet]
    by_cases hk : k2 = k3
    · rw [if_pos hk, dictGet, dictGet, if_neg (hk ▸ h), if_neg (hk ▸ h)]
    · rw [if_neg hk, dictGet, dictGet]
      by_cases hkk : k = k3
      · rw [if_pos hkk, if_pos hkk]
      · rw [if_neg hkk, if_neg hkk]
        exact ih

theorem trackerInv_insert (t : CollisionTracker) (k : PyStr) (sz : Nat)
    (hashv : List Nat) (h : trackerInv t) :
    trackerInv { t with files := dictSet k (sz, if t.method = .SIZE then none else some hashv) t.files } := by
  obtain ⟨hpw, hval⟩ := h
  refine ⟨dictSet_pairwise _ _ _ hpw, ?_⟩
  intro rec hrec
  rcases mem_dictSet _ _ _ rec hrec with rfl | h2
  · by_cases hm : t.method = CollisionMethod.SIZE
    · simp [hm]
    · simp [hm]
  · exact hval rec h2

theorem check_collision_trackerInv (hashFn : List Nat → List Nat)
    (t : CollisionTracker) (rel : PyStr) (content : List Nat) (h : trackerInv t) :
    trackerInv (check_collision hashFn t rel content).2 := by
  cases hg : dictGet rel t.files with
  | none =>
    rw [check_collision_unseen hashFn t rel content hg]
    exact trackerInv_insert t rel content.length (hashFn content) h
  | some val =>
    obtain ⟨sz, fp⟩ := val
    rw [check_collision_seen hashFn t rel content sz fp hg]
    exact h

theorem register_file_trackerInv (hashFn : List Nat → List Nat)
    (t : CollisionTracker) (rel : PyStr) (content : List Nat) (h : trackerInv t) :
    trackerInv (register_file hashFn t rel content) := by
  unfold register_file
  exact trackerInv_insert t rel content.length (compute_hash hashFn t.method content) h

theorem extract_file_tracker_cases (env : Env) (e : Entry) (io : EntryIO) (s : ExtState) :
    (extract_file env e io s).1.tracker = s.tracker ∨
    (extract_file env e io s).1.tracker =
      (check_collision env.hashFn s.tracker (fix_zip_filename e.filename) e.content).2 ∨
    ((extract_file env e io s).1.tracker =
      register_file env.hashFn
        (check_collision env.hashFn s.tracker (fix_zip_filename e.filename) e.content).2
        (generate_unique_name (fsAdd (tempAbs env.root (fix_zip_filename e.filename)) s.disk)
          env.root (fix_zip_filename e.filename)) e.content ∧
      (check_collision env.hashFn s.tracker (fix_zip_filename e.filename) e.content).1.1 = true) := by
  simp only [extract_file]
  split_ifs with h1 h2 h3 h4 h5 h6
  · exact Or.inl rfl
  · exact Or.inl rfl
  · exact Or.inr (Or.inl rfl)
  · exact Or.inr (Or.inl rfl)
  · refine Or.inr (Or.inr ⟨rfl, ?_⟩)
    simpa using h3
  · exact Or.inr (Or.inl rfl)
  · exact Or.inr (Or.inl rfl)

theorem extract_file_trackerInv (env : Env) (e : Entry) (io : EntryIO) (s : ExtState)
    (h : trackerInv s.tracker) : trackerInv (extract_file env e io s).1.tracker := by
  rcases extract_file_tracker_cases env e io s with hc | hc | ⟨hc, _⟩
  · rw [hc]; exact h
  · rw [hc]; exact check_collision_trackerInv _ _ _ _ h
  · rw [hc]
    exact register_file_trackerInv _ _ _ _ (check_collision_trackerInv _ _ _ _ h)

theorem processEntries_trackerInv (env : Env) :
    ∀ (l : List (Entry × EntryIO)) (s : ExtState), trackerInv s.tracker →
      trackerInv (processEntries env l s).tracker := by
  intro l
  induction l with
  | nil => intro s h; exact h
  | cons p rest ih =>
    intro s h
    obtain ⟨e, io⟩ := p
    by_cases hd : e.is_dir = true
    · simp only [processEntries, hd, if_true]
      exact ih s h
    · rw [Bool.not_eq_true] at hd
      have hstep := extract_file_trackerInv env e io s h
      cases hef : extract_file env e io s with
      | mk s2 exc =>
        rw [hef] at hstep
        simp only [] at hstep
        cases exc with
        | none =>
          simp only [processEntries, hd, Bool.false_eq_true, if_false, hef]
          exact ih s2 hstep
        | some m =>
          simp only [processEntries, hd, Bool.false_eq_true, if_false, hef]
          exact ih _ hstep

theorem fsAdd_mem (p x : AbsPath) (fs : List AbsPath) (h : x ∈ fs) : x ∈ fsAdd p fs := by
  unfold fsAdd
  split_ifs
  · exact h
  · exact List.mem_cons_of_mem _ h

theorem check_collision_preserves (hashFn : List Nat → List Nat) (t : CollisionTracker)
    (rel : PyStr) (content : List Nat) (k : PyStr) (v : Nat × Option (List Nat))
    (hv : dictGet k t.files = some v) :
    dictGet k (check_collision hashFn t rel content).2.files = some v := by
  cases hg : dictGet rel t.files with
  | none =>
    rw [check_collision_unseen hashFn t rel content hg]
    by_cases hk : k = rel
    · rw [hk, hg] at hv
      exact absurd hv (by simp)
    · show dictGet k (dictSet rel _ t.files) = some v
      rw [dictGet_dictSet_ne k rel _ hk]
      exact hv
  | some val =>
    obtain ⟨sz, fp⟩ := val
    rw [check_collision_seen hashFn t rel content sz fp hg]
    exact hv

theorem check_collision_collision_seen (hashFn : List Nat → List Nat)
    (t : CollisionTracker) (rel : PyStr) (content : List Nat)
    (h : (check_collision hashFn t rel content).1.1 = true) :
    ∃ val, dictGet rel t.files = some val := by
  cases hg : dictGet rel t.files with
  | none =>
    rw [check_collision_unseen hashFn t rel content hg] at h
    simp at h
  | some val => exact ⟨val, rfl⟩

theorem replaced_record_not_on_disk (env : Env) (e : Entry) (io : EntryIO) (s : ExtState)
    (k : PyStr) (v : Nat × Option (List Nat))
    (hv : dictGet k s.tracker.files = some v)
    (hch : dictGet k (extract_file env e io s).1.tracker.files ≠ some v) :
    diskPath env.root k ∉ s.disk := by
  rcases extract_file_tracker_cases env e io s with hc | hc | ⟨hc, hcol⟩
  · rw [hc] at hch
    exact absurd hv hch
  · rw [hc] at hch
    exact absurd
      (check_collision_preserves env.hashFn s.tracker (fix_zip_filename e.filename)
        e.content k v hv) hch
  · rw [hc] at hch
    obtain ⟨val, hg⟩ := check_collision_collision_seen env.hashFn s.tracker
      (fix_zip_filename e.filename) e.content hcol
    obtain ⟨sz, fp⟩ := val
    rw [check_collision_seen env.hashFn s.tracker (fix_zip_filename e.filename)
      e.content sz fp hg] at hch
    by_cases hk : k = generate_unique_name
        (fsAdd (tempAbs env.root (fix_zip_filename e.filename)) s.disk)
        env.root (fix_zip_filename e.filename)
    · rw [hk, diskPath_generate]
      have hnotin := (genCounter_spec
        (fsAdd (tempAbs env.root (fix_zip_filename e.filename)) s.disk)
        env.root (fix_zip_filename e.filename)).2.1
      intro hmem
      exact hnotin (fsAdd_mem _ _ _ hmem)
    · unfold register_file at hch
      rw [dictGet_dictSet_ne k _ _ hk] at hch
      exact absurd hv hch

/-- C9 counterexample: a failed staged rename leaves tracker key x-1.txt
with no file on disk; extracting x.txt twice then makes
generate_unique_name return x-1.txt again and register_file replaces the
record stored under that key with a different value. -/
theorem tracker_replacement_counterexample :
    dictGet (strLit "x-1.txt")
      (processEntries outEnv [entryStaged, entryFirst]
        (initState [] fastTracker0)).tracker.files = some (1, some [65]) ∧
    dictGet (strLit "x-1.txt")
      (processEntries outEnv [entryStaged, entryFirst, entrySecond]
        (initState [] fastTracker0)).tracker.files = some (1, some [67]) ∧
    (processEntries outEnv [entryStaged, entryFirst, entrySecond]
      (initState [] fastTracker0)).collisions = [(strLit "x.txt", strLit "x-1.txt")] ∧
    ((1 : Nat), (some [65] : Option (List Nat))) ≠ (1, some [67]) := by
  decide

/-- C9 (amended): throughout a run the tracker map holds at most one
record per relative path, whose fingerprint is None exactly when the
SIZE method is configured; check_collision never overwrites the record
of a seen path; and a register_file call reachable in the extractor can
replace an existing record only for a path whose file is no longer
present in the output tree at the start of that entry (possible after a
failed rename or a clobbered staging file) — renamed variants are
registered under paths unused on disk at generation time. -/
theorem tracker_record_integrity (env : Env) :
    (∀ entries s, trackerInv s.tracker →
      trackerInv (processEntries env entries s).tracker) ∧
    (∀ (hashFn : List Nat → List Nat) t rel content sz fp,
      dictGet rel t.files = some (sz, fp) →
      (check_collision hashFn t rel content).2 = t) ∧
    (∀ e io s k v, dictGet k s.tracker.files = some v →
      dictGet k (extract_file env e io s).1.tracker.files ≠ some v →
      diskPath env.root k ∉ s.disk) := by
  refine ⟨processEntries_trackerInv env, ?_, ?_⟩
  · intro hashFn t rel content sz fp h
    exact check_collision_seen hashFn t rel content sz fp h
  · intro e io s k v hv hch
    exact replaced_record_not_on_disk env e io s k v hv hch

/-- Witness for C9: the invariant holds after the three-entry replacement
run, and the replaced record's file was indeed absent from the output
tree when the third entry began. -/
theorem tracker_record_integrity_witness :
    trackerInv (processEntries outEnv [entryStaged, entryFirst, entrySecond]
      (initState [] fastTracker0)).tracker ∧
    diskPath outEnv.root (strLit "x-1.txt") ∉
      (processEntries outEnv [entryStaged, entryFirst] (initState [] fastTracker0)).disk := by
  constructor
  · exact (tracker_record_integrity outEnv).1 [entryStaged, entryFirst, entrySecond]
      (initState [] fastTracker0) (by constructor <;> simp [initState, fastTracker0])
  · exact (tracker_record_integrity outEnv).2.2 entrySecond.1 entrySecond.2
      (processEntries outEnv [entryStaged, entryFirst] (initState [] fastTracker0))
      (strLit "x-1.txt") (1, some [65]) (by decide) (by decide)

end Massunpacker
